import Mathlib

/-!
Verification of the transaction persistence and CSV interchange layer of the
savings-app repository (src/app/transaction.service.ts, src/app/app.component.ts).

The TypeScript code is shallowly embedded:

* JavaScript numbers are modelled exactly by `JSNum`: `nan`, signed infinity, or a
  finite decimal rational `m / 10^d`.  Every IEEE double is such a rational, so the
  model is an exact-value abstraction; binary rounding is not modelled because no
  property here depends on it.  `Number.prototype.toString` is modelled as the
  shortest plain decimal rendering (the exponent notation JavaScript switches to
  for magnitudes outside `[1e-6, 1e21)` is elided: `parseFloat` maps both renderings
  to the same value, which is all the properties below observe).
* JavaScript `Date` is modelled by `JSDate := Option Int`: epoch milliseconds, with
  `none` for Invalid Date.  `toISOString` and the ISO paths of `Date.parse` are
  implemented from the ECMAScript specification over a verified proleptic Gregorian
  calendar.  The host time zone is taken to be UTC (the spec, section 3, promises no
  time-zone normalization beyond the host clock); implementation-specific fallback
  date formats beyond ISO 8601 parse to Invalid Date.
* The `localStorage` slot is modelled at the JSON-value level: `Storage := Option JsVal`
  identifies a stored string with its parsed JSON value (JSON.stringify/JSON.parse
  are mutually inverse on the values the service writes).  Corruption that is valid
  JSON but not a transaction list is therefore representable; corruption at the
  JSON-syntax level is not, and no claim below needs it.
* Dynamic field access on stored junk follows JavaScript: reading a property of
  `null` throws, `.map` on a non-array throws, missing properties are `undefined`.
  The junk values are coerced into the typed `Transaction` record at read time;
  each coercion is chosen so that every observation the service actually makes
  (set membership against constructed ids, sort keys, re-serialization) agrees
  with the dynamic semantics.
* `Array.prototype.sort` (stable since ES2019) is modelled by stable insertion sort.
-/

/-! ### Decimal digit strings -/

/-- Numeric value of a decimal digit character. -/
def charVal (c : Char) : Nat := c.toNat - 48

/-- Decimal digit character for a value below ten. -/
def digitChar (n : Nat) : Char := Char.ofNat (48 + n)

/-- Decimal digit test, as in JavaScript's number scanners. -/
def isDigitCh (c : Char) : Bool := 48 ≤ c.toNat && c.toNat ≤ 57

/-- Little-endian digit rendering of a natural number; the first argument is fuel
bounding the recursion so that the definition is structural and kernel-reducible. -/
def natDigitsRev : Nat → Nat → List Char
  | 0, _ => []
  | fuel + 1, n => if n = 0 then [] else digitChar (n % 10) :: natDigitsRev fuel (n / 10)

/-- Decimal digit list of a natural number, most significant first. -/
def natChars (n : Nat) : List Char :=
  if n = 0 then ['0'] else (natDigitsRev n n).reverse

/-- Little-endian value of a digit list. -/
def revVal : List Char → Nat
  | [] => 0
  | c :: cs => charVal c + 10 * revVal cs

/-- Big-endian (left-to-right Horner) evaluation of a digit list, with accumulator. -/
def bigValAux : List Char → Nat → Nat
  | [], a => a
  | c :: cs, a => bigValAux cs (a * 10 + charVal c)

/-- Big-endian value of a digit list. -/
def bigVal (cs : List Char) : Nat := bigValAux cs 0

theorem bigValAux_nil (a : Nat) : bigValAux [] a = a := rfl

theorem bigValAux_cons (c : Char) (cs : List Char) (a : Nat) :
    bigValAux (c :: cs) a = bigValAux cs (a * 10 + charVal c) := rfl

theorem bigValAux_eq (cs : List Char) (a : Nat) :
    bigValAux cs a = a * 10 ^ cs.length + bigVal cs := by
  induction cs generalizing a with
  | nil => simp [bigValAux_nil, bigVal]
  | cons c cs ih =>
    rw [bigValAux_cons, ih (a * 10 + charVal c)]
    have h2 : bigVal (c :: cs) = charVal c * 10 ^ cs.length + bigVal cs := by
      show bigValAux cs (0 * 10 + charVal c) = _
      rw [ih (0 * 10 + charVal c)]
      ring
    rw [h2, List.length_cons]
    ring

theorem bigVal_cons (c : Char) (cs : List Char) :
    bigVal (c :: cs) = charVal c * 10 ^ cs.length + bigVal cs := by
  show bigValAux cs (0 * 10 + charVal c) = charVal c * 10 ^ cs.length + bigVal cs
  rw [bigValAux_eq]
  ring_nf

theorem bigVal_append (xs ys : List Char) :
    bigVal (xs ++ ys) = bigVal xs * 10 ^ ys.length + bigVal ys := by
  induction xs with
  | nil => simp [bigVal, bigValAux_nil]
  | cons x xs ih =>
    rw [List.cons_append, bigVal_cons, bigVal_cons, ih, List.length_append]
    ring

theorem bigVal_reverse (cs : List Char) : bigVal cs.reverse = revVal cs := by
  induction cs with
  | nil => rfl
  | cons c cs ih =>
    rw [List.reverse_cons, bigVal_append, ih, revVal]
    have h1 : bigVal [c] = charVal c := by
      show bigValAux [] (0 * 10 + charVal c) = charVal c
      rw [bigValAux_nil]
      ring
    rw [h1, List.length_singleton]
    ring

theorem charVal_digitChar (d : Nat) (h : d < 10) : charVal (digitChar d) = d := by
  interval_cases d <;> decide

theorem isDigitCh_digitChar (d : Nat) (h : d < 10) : isDigitCh (digitChar d) = true := by
  interval_cases d <;> decide

theorem natDigitsRev_val (fuel : Nat) :
    ∀ n : Nat, n ≤ fuel → revVal (natDigitsRev fuel n) = n := by
  induction fuel with
  | zero => intro n h; interval_cases n; rfl
  | succ fuel ih =>
    intro n h
    by_cases h0 : n = 0
    · subst h0; simp [natDigitsRev, revVal]
    · rw [natDigitsRev, if_neg h0, revVal]
      rw [ih (n / 10) (by omega), charVal_digitChar _ (Nat.mod_lt _ (by omega))]
      omega

theorem natDigitsRev_digits (fuel : Nat) :
    ∀ n : Nat, ∀ c ∈ natDigitsRev fuel n, isDigitCh c = true := by
  induction fuel with
  | zero => intro n c hc; simp [natDigitsRev] at hc
  | succ fuel ih =>
    intro n c hc
    by_cases h0 : n = 0
    · subst h0; simp [natDigitsRev] at hc
    · rw [natDigitsRev, if_neg h0] at hc
      rcases List.mem_cons.mp hc with h | h
      · subst h; exact isDigitCh_digitChar _ (Nat.mod_lt _ (by omega))
      · exact ih _ _ h

theorem natDigitsRev_len (fuel : Nat) :
    ∀ n k : Nat, n ≤ fuel → n < 10 ^ k → (natDigitsRev fuel n).length ≤ k := by
  induction fuel with
  | zero => intro n k h _; interval_cases n; simp [natDigitsRev]
  | succ fuel ih =>
    intro n k h hk
    by_cases h0 : n = 0
    · subst h0; simp [natDigitsRev]
    · rw [natDigitsRev, if_neg h0, List.length_cons]
      have hk1 : 1 ≤ k := by
        by_contra hc
        interval_cases k
        omega
      have : n / 10 < 10 ^ (k - 1) := by
        have h10 : 10 ^ k = 10 ^ (k - 1) * 10 := by
          rw [← pow_succ]
          congr 1
          omega
        omega
      have := ih (n / 10) (k - 1) (by omega) this
      omega

theorem bigVal_natChars (n : Nat) : bigVal (natChars n) = n := by
  rw [natChars]
  by_cases h0 : n = 0
  · subst h0; decide
  · rw [if_neg h0, bigVal_reverse, natDigitsRev_val n n le_rfl]

theorem natChars_digits (n : Nat) : ∀ c ∈ natChars n, isDigitCh c = true := by
  intro c hc
  rw [natChars] at hc
  by_cases h0 : n = 0
  · rw [if_pos h0] at hc
    simp at hc
    subst hc
    decide
  · rw [if_neg h0] at hc
    exact natDigitsRev_digits n n c (List.mem_reverse.mp hc)

theorem natChars_len (n k : Nat) (hk : 1 ≤ k) (h : n < 10 ^ k) :
    (natChars n).length ≤ k := by
  rw [natChars]
  by_cases h0 : n = 0
  · rw [if_pos h0]; simpa using hk
  · rw [if_neg h0, List.length_reverse]
    exact natDigitsRev_len n n k le_rfl h

theorem natChars_ne_nil (n : Nat) : natChars n ≠ [] := by
  rw [natChars]
  by_cases h0 : n = 0
  · rw [if_pos h0]; simp
  · rw [if_neg h0]
    intro hc
    have := natDigitsRev_val n n le_rfl
    rw [show natDigitsRev n n = [] from by
      have := congrArg List.reverse hc
      simpa using this] at this
    simp [revVal] at this
    omega

/-- Left-pad a digit list with zeros to length `k`. -/
def padChars (k : Nat) (cs : List Char) : List Char :=
  List.replicate (k - cs.length) '0' ++ cs

theorem bigVal_replicate_zero (j : Nat) (cs : List Char) :
    bigVal (List.replicate j '0' ++ cs) = bigVal cs := by
  induction j with
  | zero => simp
  | succ j ih =>
    rw [List.replicate_succ, List.cons_append, bigVal_cons, ih]
    have h0 : charVal '0' = 0 := by decide
    rw [h0, zero_mul, zero_add]

theorem bigVal_padChars (k : Nat) (cs : List Char) : bigVal (padChars k cs) = bigVal cs :=
  bigVal_replicate_zero _ _

theorem padChars_length (k : Nat) (cs : List Char) (h : cs.length ≤ k) :
    (padChars k cs).length = k := by
  rw [padChars, List.length_append, List.length_replicate]
  omega

theorem padChars_digits (k : Nat) (cs : List Char) (h : ∀ c ∈ cs, isDigitCh c = true) :
    ∀ c ∈ padChars k cs, isDigitCh c = true := by
  intro c hc
  rcases List.mem_append.mp hc with h1 | h1
  · rw [List.eq_of_mem_replicate h1]; decide
  · exact h c h1

/-- Decimal digit string of a natural number padded to `k` digits, as a list. -/
def padNat (k n : Nat) : List Char := padChars k (natChars n)

theorem padNat_spec (k n : Nat) (hk : 1 ≤ k) (h : n < 10 ^ k) :
    (padNat k n).length = k ∧ bigVal (padNat k n) = n ∧
      ∀ c ∈ padNat k n, isDigitCh c = true :=
  ⟨padChars_length _ _ (natChars_len n k hk h),
   by rw [padNat, bigVal_padChars, bigVal_natChars],
   padChars_digits _ _ (natChars_digits n)⟩

/-- Rendering of an integer in JavaScript `Number.prototype.toString` style:
optional leading minus, then decimal digits. -/
def intChars (i : Int) : List Char :=
  if i < 0 then '-' :: natChars i.natAbs else natChars i.natAbs

/-! ### JavaScript numbers

A JavaScript number is `NaN`, a signed infinity, or a finite value; every finite
IEEE double equals `m / 10^d` for some integer `m` and natural `d`, which is the
representation used here (exact values, no binary rounding). -/

inductive JSNum where
  | nan : JSNum
  | posInf : JSNum
  | negInf : JSNum
  | finite (m : Int) (d : Nat) : JSNum
deriving DecidableEq

/-- Test mirroring JavaScript's global `isNaN` on an already-numeric value. -/
def JSNum.isNaN : JSNum → Bool
  | .nan => true
  | _ => false

/-- Value equivalence of two model numbers: equality of the denoted values
(`m1/10^d1 = m2/10^d2` for finite ones).  JavaScript can observe numbers only up
to this equivalence. -/
def JSNum.eqv : JSNum → JSNum → Bool
  | .nan, .nan => true
  | .posInf, .posInf => true
  | .negInf, .negInf => true
  | .finite m1 d1, .finite m2 d2 => m1 * 10 ^ d2 == m2 * 10 ^ d1
  | _, _ => false

/-- Canonical form of a finite decimal `m / 10^d`: divide out factors of ten so the
fraction part has no trailing zero (this is the value JavaScript's shortest-output
`toString` prints). -/
def canonP : Int → Nat → Int × Nat
  | m, 0 => (m, 0)
  | m, d + 1 => if m % 10 = 0 then canonP (m / 10) d else (m, d + 1)

theorem canonP_val (m : Int) (d : Nat) :
    (canonP m d).2 ≤ d ∧ m = (canonP m d).1 * 10 ^ (d - (canonP m d).2) := by
  induction d generalizing m with
  | zero => simp [canonP]
  | succ d ih =>
    rw [canonP]
    by_cases h10 : m % 10 = 0
    · rw [if_pos h10]
      obtain ⟨h1, h2⟩ := ih (m / 10)
      refine ⟨by omega, ?_⟩
      have hm : m = m / 10 * 10 := by omega
      have hpow : (10 : Int) ^ (d - (canonP (m / 10) d).2) * 10 =
          10 ^ (d + 1 - (canonP (m / 10) d).2) := by
        rw [← pow_succ]
        congr 1
        omega
      conv_lhs => rw [hm, h2]
      rw [mul_assoc, hpow]
    · rw [if_neg h10]
      simp

/-- Plain-decimal rendering of the finite value `m / 10^d` after canonicalization:
optional minus sign, integer digits, and a fraction part when `d > 0`
(`Number.prototype.toString` for finite doubles, exponent notation elided). -/
def finChars (m : Int) (d : Nat) : List Char :=
  let p := canonP m d
  let sign : List Char := if p.1 < 0 then ['-'] else []
  if p.2 = 0 then sign ++ natChars p.1.natAbs
  else
    let digs := padChars (p.2 + 1) (natChars p.1.natAbs)
    sign ++ digs.take (digs.length - p.2) ++ '.' :: digs.drop (digs.length - p.2)

/-- Character list of the string JavaScript coercion produces for a number. -/
def JSNum.toChars : JSNum → List Char
  | .nan => ['N', 'a', 'N']
  | .posInf => ['I', 'n', 'f', 'i', 'n', 'i', 't', 'y']
  | .negInf => '-' :: ['I', 'n', 'f', 'i', 'n', 'i', 't', 'y']
  | .finite m d => finChars m d

/-- String JavaScript coercion produces for a number. -/
def JSNum.toStr (n : JSNum) : String := String.mk n.toChars

/-- White-space class skipped by `parseFloat` (JavaScript StrWhiteSpaceChar;
exotic Unicode space variants are not distinguished by anything verified here). -/
def jsWsCh (c : Char) : Bool := c.isWhitespace

/-- Character list of the literal `Infinity`. -/
def infinityChars : List Char := ['I', 'n', 'f', 'i', 'n', 'i', 't', 'y']

/-- Split an optional leading sign, reporting whether it was a minus. -/
def signSplit (cs : List Char) : Bool × List Char :=
  match cs with
  | c :: r => if c = '-' then (true, r) else if c = '+' then (false, r) else (false, cs)
  | [] => (false, [])

/-- Split an optional fraction part `.digits`, returning the fraction digits and
the remainder of the input. -/
def fracSplit : List Char → List Char × List Char
  | c :: r =>
    if c = '.' then (r.takeWhile isDigitCh, r.dropWhile isDigitCh)
    else ([], c :: r)
  | [] => ([], [])

/-- Value of an optional exponent part (`e`/`E`, optional sign, digits); `0` when
absent or malformed, because `parseFloat` backtracks to the longest valid prefix. -/
def expVal (cs : List Char) : Int :=
  match cs with
  | c :: rest =>
    if c = 'e' ∨ c = 'E' then
      match rest with
      | '+' :: ds => if ds.takeWhile isDigitCh = [] then 0 else (bigVal (ds.takeWhile isDigitCh) : Int)
      | '-' :: ds => if ds.takeWhile isDigitCh = [] then 0 else -(bigVal (ds.takeWhile isDigitCh) : Int)
      | ds => if ds.takeWhile isDigitCh = [] then 0 else (bigVal (ds.takeWhile isDigitCh) : Int)
    else 0
  | [] => 0

/-- Model of JavaScript `parseFloat`: skip leading white space, optional sign, then
the longest prefix that is `Infinity` or a decimal literal with optional fraction
and exponent; `NaN` when no prefix parses.  Values are exact (no double rounding;
in particular a huge exponent does not overflow to infinity in the model). -/
def parseFloatChars (cs : List Char) : JSNum :=
  let cs1 := cs.dropWhile jsWsCh
  let sg := signSplit cs1
  let neg := sg.1
  let cs2 := sg.2
  if cs2.take 8 = infinityChars then (if neg then .negInf else .posInf)
  else
    let ip := cs2.takeWhile isDigitCh
    let r1 := cs2.dropWhile isDigitCh
    let fr := fracSplit r1
    let fp := fr.1
    let r2 := fr.2
    if ip = [] ∧ fp = [] then .nan
    else
      let mAbs : Nat := bigVal ip * 10 ^ fp.length + bigVal fp
      let mi : Int := if neg then -(mAbs : Int) else (mAbs : Int)
      let e := expVal r2
      if 0 ≤ e then .finite (mi * 10 ^ e.toNat) fp.length
      else .finite mi (fp.length + (-e).toNat)

/-- Model of JavaScript `parseFloat` on a string. -/
def parseFloatStr (s : String) : JSNum := parseFloatChars s.data

theorem isDigitCh_ne_ch (c x : Char) (h : isDigitCh c = true) (hx : isDigitCh x = false) :
    c ≠ x := by
  intro h'
  rw [h'] at h
  rw [h] at hx
  cases hx

theorem isDigitCh_not_ws (c : Char) (h : isDigitCh c = true) : jsWsCh c = false := by
  have h1 : c ≠ ' ' := isDigitCh_ne_ch c ' ' h (by decide)
  have h2 : c ≠ '\t' := isDigitCh_ne_ch c '\t' h (by decide)
  have h3 : c ≠ '\r' := isDigitCh_ne_ch c '\r' h (by decide)
  have h4 : c ≠ '\n' := isDigitCh_ne_ch c '\n' h (by decide)
  simp [jsWsCh, Char.isWhitespace, h1, h2, h3, h4]

theorem takeWhile_all {p : Char → Bool} {l : List Char} (h : ∀ c ∈ l, p c = true) :
    l.takeWhile p = l := by
  induction l with
  | nil => rfl
  | cons c cs ih =>
    simp only [List.takeWhile_cons, h c (List.mem_cons_self _ _), if_true]
    rw [ih (fun x hx => h x (List.mem_cons_of_mem _ hx))]

theorem dropWhile_all {p : Char → Bool} {l : List Char} (h : ∀ c ∈ l, p c = true) :
    l.dropWhile p = [] := by
  induction l with
  | nil => rfl
  | cons c cs ih =>
    rw [List.dropWhile_cons, h c (List.mem_cons_self _ _)]
    simpa using ih (fun x hx => h x (List.mem_cons_of_mem _ hx))

theorem dropWhile_head_not {p : Char → Bool} {l : List Char}
    (h : ∀ c, l.head? = some c → p c = false) : l.dropWhile p = l := by
  cases l with
  | nil => rfl
  | cons c cs =>
    rw [List.dropWhile_cons, h c rfl]
    simp

theorem takeWhile_append_stop {p : Char → Bool} {ds rest : List Char}
    (hd : ∀ c ∈ ds, p c = true) (hr : ∀ c, rest.head? = some c → p c = false) :
    (ds ++ rest).takeWhile p = ds ∧ (ds ++ rest).dropWhile p = rest := by
  induction ds with
  | nil =>
    refine ⟨?_, by simpa using dropWhile_head_not hr⟩
    simp only [List.nil_append]
    cases rest with
    | nil => rfl
    | cons c cs => simp only [List.takeWhile_cons, hr c rfl, if_false, Bool.false_eq_true]
  | cons c cs ih =>
    obtain ⟨ih1, ih2⟩ := ih (fun x hx => hd x (List.mem_cons_of_mem _ hx))
    constructor
    · simp only [List.cons_append, List.takeWhile_cons, hd c (List.mem_cons_self _ _),
        if_true, ih1]
    · simp only [List.cons_append, List.dropWhile_cons, hd c (List.mem_cons_self _ _),
        if_true, ih2]

theorem signSplit_digit (c : Char) (cs : List Char) (h : isDigitCh c = true) :
    signSplit (c :: cs) = (false, c :: cs) := by
  have h1 : c ≠ '-' := isDigitCh_ne_ch c '-' h (by decide)
  have h2 : c ≠ '+' := isDigitCh_ne_ch c '+' h (by decide)
  simp [signSplit, h1, h2]

theorem take8_ne_infinity (c : Char) (cs : List Char) (h : isDigitCh c = true) :
    (c :: cs).take 8 ≠ infinityChars := by
  intro heq
  rw [show (8 : Nat) = 7 + 1 from rfl, List.take_succ_cons] at heq
  have hcI : c = 'I' := List.head_eq_of_cons_eq heq
  rw [hcI] at h
  cases h

/-- Core of the round trip: parsing an unsigned digit string with no fraction. -/
theorem parseFloatChars_digits (ds : List Char) (hds : ∀ c ∈ ds, isDigitCh c = true)
    (hne : ds ≠ []) : parseFloatChars ds = .finite (bigVal ds) 0 := by
  obtain ⟨c, t, rfl⟩ := List.exists_cons_of_ne_nil hne
  have hc : isDigitCh c = true := hds c (List.mem_cons_self _ _)
  have hws : (c :: t).dropWhile jsWsCh = c :: t := by
    apply dropWhile_head_not
    intro x hx
    have hxc : x = c := by simpa using hx.symm
    subst hxc
    exact isDigitCh_not_ws _ hc
  have htake : (c :: t).takeWhile isDigitCh = c :: t := takeWhile_all hds
  have hdrop : (c :: t).dropWhile isDigitCh = [] := dropWhile_all hds
  rw [parseFloatChars]
  rw [hws, signSplit_digit c t hc]
  rw [if_neg (take8_ne_infinity c t hc)]
  rw [htake, hdrop]
  rw [if_neg (by simp)]
  show JSNum.finite ((if false = true then _ else ((bigVal (c :: t) * 10 ^ _ + _ : Nat) : Int)) * 10 ^ (expVal (fracSplit []).2).toNat) (fracSplit []).1.length = _
  simp [fracSplit, expVal, bigVal, bigValAux_nil]

/-- Core of the round trip: parsing a signed digit string with no fraction. -/
theorem parseFloatChars_digits_neg (ds : List Char) (hds : ∀ c ∈ ds, isDigitCh c = true)
    (hne : ds ≠ []) : parseFloatChars ('-' :: ds) = .finite (-(bigVal ds : Int)) 0 := by
  obtain ⟨c, t, rfl⟩ := List.exists_cons_of_ne_nil hne
  have hc : isDigitCh c = true := hds c (List.mem_cons_self _ _)
  have hws : ('-' :: c :: t).dropWhile jsWsCh = '-' :: c :: t := by
    apply dropWhile_head_not
    intro x hx
    have hxc : x = '-' := by simpa using hx.symm
    subst hxc
    decide
  have htake : (c :: t).takeWhile isDigitCh = c :: t := takeWhile_all hds
  have hdrop : (c :: t).dropWhile isDigitCh = [] := dropWhile_all hds
  rw [parseFloatChars]
  rw [hws]
  rw [show signSplit ('-' :: c :: t) = (true, c :: t) from by simp [signSplit]]
  rw [if_neg (take8_ne_infinity c t hc)]
  rw [htake, hdrop]
  rw [if_neg (by simp)]
  show JSNum.finite ((if true = true then -((bigVal (c :: t) * 10 ^ _ + _ : Nat) : Int) else _) * 10 ^ (expVal (fracSplit []).2).toNat) (fracSplit []).1.length = _
  simp [fracSplit, expVal, bigVal, bigValAux_nil]

/-- Core of the round trip: parsing an unsigned digit string with a fraction part. -/
theorem parseFloatChars_frac (ip fp : List Char)
    (hip : ∀ c ∈ ip, isDigitCh c = true) (hfp : ∀ c ∈ fp, isDigitCh c = true)
    (hne : ip ≠ []) :
    parseFloatChars (ip ++ '.' :: fp) =
      .finite ((bigVal ip * 10 ^ fp.length + bigVal fp : Nat) : Int) fp.length := by
  obtain ⟨c, t, rfl⟩ := List.exists_cons_of_ne_nil hne
  have hc : isDigitCh c = true := hip c (List.mem_cons_self _ _)
  have hws : ((c :: t) ++ '.' :: fp).dropWhile jsWsCh = (c :: t) ++ '.' :: fp := by
    apply dropWhile_head_not
    intro x hx
    have hxc : x = c := by simpa using hx.symm
    subst hxc
    exact isDigitCh_not_ws _ hc
  obtain ⟨htake, hdrop⟩ := @takeWhile_append_stop isDigitCh (c :: t) ('.' :: fp) hip
    (fun x hx => by
      have hxc : x = '.' := by simpa using hx.symm
      subst hxc
      decide)
  have hsign : signSplit ((c :: t) ++ '.' :: fp) = (false, (c :: t) ++ '.' :: fp) :=
    signSplit_digit c _ hc
  rw [parseFloatChars]
  rw [hws, hsign]
  dsimp only
  simp only [List.cons_append] at htake hdrop ⊢
  rw [if_neg (take8_ne_infinity c _ hc)]
  rw [htake, hdrop]
  rw [show fracSplit ('.' :: fp) = (fp, []) from by
    simp [fracSplit, takeWhile_all hfp, dropWhile_all hfp]]
  rw [if_neg (by simp)]
  show JSNum.finite ((if false = true then _ else ((bigVal (c :: t) * 10 ^ fp.length + bigVal fp : Nat) : Int)) * 10 ^ (expVal []).toNat) fp.length = _
  simp [expVal]

/-- Core of the round trip: parsing a signed digit string with a fraction part. -/
theorem parseFloatChars_frac_neg (ip fp : List Char)
    (hip : ∀ c ∈ ip, isDigitCh c = true) (hfp : ∀ c ∈ fp, isDigitCh c = true)
    (hne : ip ≠ []) :
    parseFloatChars ('-' :: (ip ++ '.' :: fp)) =
      .finite (-((bigVal ip * 10 ^ fp.length + bigVal fp : Nat) : Int)) fp.length := by
  obtain ⟨c, t, rfl⟩ := List.exists_cons_of_ne_nil hne
  have hc : isDigitCh c = true := hip c (List.mem_cons_self _ _)
  have hws : ('-' :: ((c :: t) ++ '.' :: fp)).dropWhile jsWsCh
      = '-' :: ((c :: t) ++ '.' :: fp) := by
    apply dropWhile_head_not
    intro x hx
    have hxc : x = '-' := by simpa using hx.symm
    subst hxc
    decide
  obtain ⟨htake, hdrop⟩ := @takeWhile_append_stop isDigitCh (c :: t) ('.' :: fp) hip
    (fun x hx => by
      have hxc : x = '.' := by simpa using hx.symm
      subst hxc
      decide)
  rw [parseFloatChars]
  rw [hws]
  rw [show signSplit ('-' :: ((c :: t) ++ '.' :: fp)) = (true, (c :: t) ++ '.' :: fp)
    from by simp [signSplit]]
  dsimp only
  simp only [List.cons_append] at htake hdrop ⊢
  rw [if_neg (take8_ne_infinity c _ hc)]
  rw [htake, hdrop]
  rw [show fracSplit ('.' :: fp) = (fp, []) from by
    simp [fracSplit, takeWhile_all hfp, dropWhile_all hfp]]
  rw [if_neg (by simp)]
  simp [expVal]

theorem padChars_length_ge (k : Nat) (cs : List Char) : k ≤ (padChars k cs).length := by
  rw [padChars, List.length_append, List.length_replicate]
  omega

theorem bigVal_split (digs : List Char) (k : Nat) (hk : k ≤ digs.length) :
    bigVal (digs.take (digs.length - k)) * 10 ^ k
      + bigVal (digs.drop (digs.length - k)) = bigVal digs := by
  have hdl : (digs.drop (digs.length - k)).length = k := by
    rw [List.length_drop]
    omega
  conv_rhs => rw [← List.take_append_drop (digs.length - k) digs]
  rw [bigVal_append, hdl]

/-- Parsing the canonical decimal rendering of a finite value recovers exactly the
canonical representation: `parseFloat` is a left inverse of `toString` on finite
JavaScript numbers. -/
theorem parseFloatChars_finChars (m : Int) (d : Nat) :
    parseFloatChars (finChars m d) = JSNum.finite (canonP m d).1 (canonP m d).2 := by
  rw [finChars]
  by_cases hd0 : (canonP m d).2 = 0
  · rw [if_pos hd0]
    by_cases hneg : (canonP m d).1 < 0
    · rw [if_pos hneg, List.singleton_append]
      rw [parseFloatChars_digits_neg _ (natChars_digits _) (natChars_ne_nil _)]
      rw [bigVal_natChars, hd0]
      congr 1
      omega
    · rw [if_neg hneg, List.nil_append]
      rw [parseFloatChars_digits _ (natChars_digits _) (natChars_ne_nil _)]
      rw [bigVal_natChars, hd0]
      congr 1
      omega
  · rw [if_neg hd0]
    have hL : (canonP m d).2 + 1 ≤ (padChars ((canonP m d).2 + 1) (natChars (canonP m d).1.natAbs)).length :=
      padChars_length_ge _ _
    have hdigs : ∀ c ∈ padChars ((canonP m d).2 + 1) (natChars (canonP m d).1.natAbs),
        isDigitCh c = true := padChars_digits _ _ (natChars_digits _)
    have htd : ∀ c ∈ (padChars ((canonP m d).2 + 1) (natChars (canonP m d).1.natAbs)).take
        ((padChars ((canonP m d).2 + 1) (natChars (canonP m d).1.natAbs)).length - (canonP m d).2),
        isDigitCh c = true := fun c hc => hdigs c (List.take_subset _ _ hc)
    have hdd : ∀ c ∈ (padChars ((canonP m d).2 + 1) (natChars (canonP m d).1.natAbs)).drop
        ((padChars ((canonP m d).2 + 1) (natChars (canonP m d).1.natAbs)).length - (canonP m d).2),
        isDigitCh c = true := fun c hc => hdigs c (List.drop_subset _ _ hc)
    have htne : (padChars ((canonP m d).2 + 1) (natChars (canonP m d).1.natAbs)).take
        ((padChars ((canonP m d).2 + 1) (natChars (canonP m d).1.natAbs)).length - (canonP m d).2) ≠ [] := by
      apply List.ne_nil_of_length_pos
      rw [List.length_take]
      omega
    have hdl : ((padChars ((canonP m d).2 + 1) (natChars (canonP m d).1.natAbs)).drop
        ((padChars ((canonP m d).2 + 1) (natChars (canonP m d).1.natAbs)).length - (canonP m d).2)).length
        = (canonP m d).2 := by
      rw [List.length_drop]
      omega
    have hval : bigVal ((padChars ((canonP m d).2 + 1) (natChars (canonP m d).1.natAbs)).take
          ((padChars ((canonP m d).2 + 1) (natChars (canonP m d).1.natAbs)).length - (canonP m d).2))
          * 10 ^ (canonP m d).2
        + bigVal ((padChars ((canonP m d).2 + 1) (natChars (canonP m d).1.natAbs)).drop
          ((padChars ((canonP m d).2 + 1) (natChars (canonP m d).1.natAbs)).length - (canonP m d).2))
        = (canonP m d).1.natAbs := by
      rw [bigVal_split _ _ (by omega), bigVal_padChars, bigVal_natChars]
    by_cases hneg : (canonP m d).1 < 0
    · rw [if_pos hneg]
      dsimp only
      simp only [List.singleton_append, List.cons_append, List.nil_append]
      refine Eq.trans (parseFloatChars_frac_neg _ _ htd hdd htne) ?_
      rw [hdl, hval]
      congr 1
      omega
    · rw [if_neg hneg]
      dsimp only
      simp only [List.nil_append]
      refine Eq.trans (parseFloatChars_frac _ _ htd hdd htne) ?_
      rw [hdl, hval]
      congr 1
      omega

/-- Canonicalization preserves the denoted value. -/
theorem eqv_canonP (m : Int) (d : Nat) :
    JSNum.eqv (JSNum.finite m d) (JSNum.finite (canonP m d).1 (canonP m d).2) = true := by
  obtain ⟨h1, h2⟩ := canonP_val m d
  rw [JSNum.eqv, beq_iff_eq]
  set a := (canonP m d).1 with ha
  set k := (canonP m d).2 with hk
  rw [h2, mul_assoc, ← pow_add]
  congr 2
  omega

/-- Every character of the rendering of a finite value is a digit, a minus sign,
or a decimal point. -/
theorem finChars_classes (m : Int) (d : Nat) :
    ∀ c ∈ finChars m d, isDigitCh c = true ∨ c = '-' ∨ c = '.' := by
  intro c hc
  rw [finChars] at hc
  by_cases hd0 : (canonP m d).2 = 0
  · rw [if_pos hd0] at hc
    by_cases hneg : (canonP m d).1 < 0
    · rw [if_pos hneg, List.singleton_append] at hc
      rcases List.mem_cons.mp hc with h | h
      · right; left; exact h
      · left; exact natChars_digits _ _ h
    · rw [if_neg hneg, List.nil_append] at hc
      left; exact natChars_digits _ _ hc
  · rw [if_neg hd0] at hc
    have hdigs : ∀ x ∈ padChars ((canonP m d).2 + 1) (natChars (canonP m d).1.natAbs),
        isDigitCh x = true := padChars_digits _ _ (natChars_digits _)
    by_cases hneg : (canonP m d).1 < 0
    · rw [if_pos hneg] at hc
      simp only [List.singleton_append, List.cons_append, List.nil_append] at hc
      rcases List.mem_cons.mp hc with h | h
      · right; left; exact h
      · rcases List.mem_append.mp h with h1 | h1
        · left; exact hdigs _ (List.take_subset _ _ h1)
        · rcases List.mem_cons.mp h1 with h2 | h2
          · right; right; exact h2
          · left; exact hdigs _ (List.drop_subset _ _ h2)
    · rw [if_neg hneg] at hc
      simp only [List.nil_append] at hc
      rcases List.mem_append.mp hc with h1 | h1
      · left; exact hdigs _ (List.take_subset _ _ h1)
      · rcases List.mem_cons.mp h1 with h2 | h2
        · right; right; exact h2
        · left; exact hdigs _ (List.drop_subset _ _ h2)

/-! ### Proleptic Gregorian calendar

ECMAScript `Date` arithmetic (MakeDay, YearFromTime, `toISOString`) is a bijection
between day numbers (days since 1970-01-01) and valid proleptic-Gregorian civil
dates.  It is implemented here era-wise (400-year cycles of 146097 days, years
shifted to start in March) and proved to be a left inverse, which is the direction
every claim needs. -/

/-- Day-of-era at which the shifted (March-based) year `y` of an era starts. -/
def doeStart (y : Nat) : Nat := 365 * y + y / 4 - y / 100

/-- Shifted year within its era containing day-of-era `doe`. -/
def yoeOf (doe : Nat) : Nat :=
  let y0 := doe / 365
  let y1 := if y0 = 400 then 399 else y0
  if doe < doeStart y1 then y1 - 1 else y1

/-- Day-of-year at which shifted month `mp` (0 = March … 11 = February) starts. -/
def doyStart (mp : Nat) : Nat := (153 * mp + 2) / 5

/-- Shifted month containing day-of-year `doy`. -/
def mpOfDoy (doy : Nat) : Nat := (5 * doy + 2) / 153

/-- Era index of day number `z` (days since the epoch). -/
def eraOf (z : Int) : Int := (z + 719468) / 146097

/-- Day-of-era of day number `z`. -/
def doeOf (z : Int) : Nat := (z + 719468 - eraOf z * 146097).toNat

/-- Calendar date `(year, month, day)` of a day number. -/
def civilFromDays (z : Int) : Int × Nat × Nat :=
  let doe := doeOf z
  let yoe := yoeOf doe
  let doy := doe - doeStart yoe
  let mp := mpOfDoy doy
  let day := doy - doyStart mp + 1
  let m := if mp < 10 then mp + 3 else mp - 9
  (eraOf z * 400 + (yoe : Int) + (if m ≤ 2 then 1 else 0), m, day)

/-- Leap-year predicate (ECMAScript DaysInYear). -/
def isLeapY (y : Int) : Bool := (y % 4 == 0) && (!(y % 100 == 0) || (y % 400 == 0))

/-- Number of days in month `m` (1–12) of year `y` (ECMAScript DaysInMonth). -/
def daysInMonth (y : Int) (m : Nat) : Nat :=
  if m = 1 ∨ m = 3 ∨ m = 5 ∨ m = 7 ∨ m = 8 ∨ m = 10 ∨ m = 12 then 31
  else if m = 4 ∨ m = 6 ∨ m = 9 ∨ m = 11 then 30
  else if isLeapY y then 29 else 28

/-- Day number of a calendar date (ECMAScript MakeDay on valid components). -/
def daysFromCivil (y : Int) (m day : Nat) : Int :=
  let ys := y - (if m ≤ 2 then 1 else 0)
  let era := ys / 400
  let yoe := (ys - era * 400).toNat
  let mp := if m ≤ 2 then m + 9 else m - 3
  let doy := doyStart mp + day - 1
  let doe := doeStart yoe + doy
  era * 146097 + (doe : Int) - 719468

theorem yoeOf_bracket (doe : Nat) (h : doe < 146097) :
    doeStart (yoeOf doe) ≤ doe ∧ yoeOf doe ≤ 399 ∧
      doe < (if yoeOf doe = 399 then 146097 else doeStart (yoeOf doe + 1)) := by
  have hq := Nat.div_add_mod doe 365
  have hr : doe % 365 < 365 := Nat.mod_lt _ (by norm_num)
  have hqle : doe / 365 ≤ 400 := by omega
  by_cases h400 : doe / 365 = 400
  · have hge : 146000 ≤ doe := by omega
    have hy : yoeOf doe = 399 := by
      rw [yoeOf]
      rw [if_pos h400, if_neg (by rw [doeStart]; omega)]
    rw [hy]
    refine ⟨by rw [doeStart]; omega, by norm_num, by norm_num; exact h⟩
  · by_cases hlt : doe < doeStart (doe / 365)
    · have hq1 : 1 ≤ doe / 365 := by
        by_contra hc
        have : doe / 365 = 0 := by omega
        rw [this, doeStart] at hlt
        omega
      have hy : yoeOf doe = doe / 365 - 1 := by
        rw [yoeOf]
        rw [if_neg h400, if_pos hlt]
      rw [hy]
      have h399 : doe / 365 - 1 ≠ 399 := by omega
      rw [if_neg h399]
      have he : doe / 365 - 1 + 1 = doe / 365 := by omega
      rw [he]
      have hs4 := Nat.div_add_mod (doe / 365 - 1) 4
      have hs4r : (doe / 365 - 1) % 4 < 4 := Nat.mod_lt _ (by norm_num)
      have hs100 := Nat.div_add_mod (doe / 365 - 1) 100
      have hs100r : (doe / 365 - 1) % 100 < 100 := Nat.mod_lt _ (by norm_num)
      rw [doeStart] at hlt ⊢
      refine ⟨by omega, by omega, hlt⟩
    · have hy : yoeOf doe = doe / 365 := by
        rw [yoeOf]
        rw [if_neg h400, if_neg hlt]
      rw [hy]
      by_cases h399 : doe / 365 = 399
      · rw [h399] at hlt ⊢
        rw [doeStart] at hlt
        refine ⟨by rw [doeStart]; omega, by norm_num, by norm_num; exact h⟩
      · rw [if_neg h399]
        have hv4 := Nat.div_add_mod (doe / 365) 4
        have hv4r : (doe / 365) % 4 < 4 := Nat.mod_lt _ (by norm_num)
        have hv100 := Nat.div_add_mod (doe / 365) 100
        have hv100r : (doe / 365) % 100 < 100 := Nat.mod_lt _ (by norm_num)
        have hw4 := Nat.div_add_mod (doe / 365 + 1) 4
        have hw4r : (doe / 365 + 1) % 4 < 4 := Nat.mod_lt _ (by norm_num)
        have hw100 := Nat.div_add_mod (doe / 365 + 1) 100
        have hw100r : (doe / 365 + 1) % 100 < 100 := Nat.mod_lt _ (by norm_num)
        rw [doeStart] at hlt ⊢
        rw [doeStart]
        refine ⟨by omega, by omega, by omega⟩

theorem mp_bracket (doy : Nat) (h : doy ≤ 365) :
    mpOfDoy doy ≤ 11 ∧ doyStart (mpOfDoy doy) ≤ doy ∧
      doy < doyStart (mpOfDoy doy + 1) := by
  rw [mpOfDoy, doyStart, doyStart]
  omega

theorem eraYearLen (yoe : Nat) (h : yoe ≤ 399) :
    365 ≤ (if yoe = 399 then 146097 else doeStart (yoe + 1)) - doeStart yoe ∧
    (if yoe = 399 then 146097 else doeStart (yoe + 1)) - doeStart yoe ≤ 366 ∧
    (((if yoe = 399 then 146097 else doeStart (yoe + 1)) - doeStart yoe = 366) ↔
      ((yoe + 1) % 4 = 0 ∧ ((yoe + 1) % 100 ≠ 0 ∨ yoe + 1 = 400))) := by
  by_cases h399 : yoe = 399
  · subst h399
    rw [if_pos rfl, doeStart]
    norm_num
  · rw [if_neg h399, doeStart, doeStart]
    omega

theorem isLeapY_iff (y : Int) :
    isLeapY y = true ↔ (y % 4 = 0 ∧ (¬ y % 100 = 0 ∨ y % 400 = 0)) := by
  rw [isLeapY]
  simp only [Bool.and_eq_true, Bool.or_eq_true, beq_iff_eq, Bool.not_eq_true',
    beq_eq_false_iff_ne, ne_eq]

theorem isLeapY_shift (era : Int) (k : Nat) (h1 : 1 ≤ k) (h2 : k ≤ 400) :
    (isLeapY (era * 400 + (k : Int)) = true) ↔ (k % 4 = 0 ∧ (k % 100 ≠ 0 ∨ k = 400)) := by
  rw [isLeapY_iff]
  omega

theorem doeOf_spec (z : Int) :
    (doeOf z : Int) = z + 719468 - eraOf z * 146097 ∧ doeOf z < 146097 := by
  rw [doeOf, eraOf]
  have h1 : 0 ≤ z + 719468 - (z + 719468) / 146097 * 146097 := by omega
  constructor
  · rw [Int.toNat_of_nonneg h1]
  · omega

theorem monthLen_eq (mp : Nat) (h : mp < 11) (y : Int) :
    daysInMonth y (if mp < 10 then mp + 3 else mp - 9) = doyStart (mp + 1) - doyStart mp := by
  interval_cases mp <;> norm_num [daysInMonth, doyStart]

theorem daysFromCivil_shift (era : Int) (yoe : Nat) (hy : yoe ≤ 399) (mp : Nat)
    (hmp : mp ≤ 11) (day : Nat) :
    daysFromCivil
        (era * 400 + (yoe : Int) + (if (if mp < 10 then mp + 3 else mp - 9) ≤ 2 then 1 else 0))
        (if mp < 10 then mp + 3 else mp - 9) day
      = era * 146097 + ((doeStart yoe + (doyStart mp + day - 1) : Nat) : Int) - 719468 := by
  rw [daysFromCivil]
  by_cases h10 : mp < 10
  · rw [if_pos h10]
    have hle : ¬ (mp + 3 ≤ 2) := by omega
    rw [if_neg hle, if_neg hle]
    have hs : era * 400 + (yoe : Int) + 0 - 0 = era * 400 + (yoe : Int) := by ring
    rw [hs]
    have h1 : (era * 400 + (yoe : Int)) / 400 = era := by omega
    rw [h1]
    have h2 : (era * 400 + (yoe : Int) - era * 400).toNat = yoe := by omega
    rw [h2]
    have h3 : mp + 3 - 3 = mp := by omega
    rw [h3]
  · rw [if_neg h10]
    have hle : mp - 9 ≤ 2 := by omega
    rw [if_pos hle, if_pos hle]
    have hs : era * 400 + (yoe : Int) + 1 - 1 = era * 400 + (yoe : Int) := by ring
    rw [hs]
    have h1 : (era * 400 + (yoe : Int)) / 400 = era := by omega
    rw [h1]
    have h2 : (era * 400 + (yoe : Int) - era * 400).toNat = yoe := by omega
    rw [h2]
    have h3 : mp - 9 + 9 = mp := by omega
    rw [h3]

/-- Left-inverse and validity of the civil-date conversion: converting any day
number to a calendar date and back is the identity, and the components produced
are a valid month and in-range day of a valid proleptic-Gregorian date. -/
theorem civilFromDays_spec (z : Int) :
    daysFromCivil (civilFromDays z).1 (civilFromDays z).2.1 (civilFromDays z).2.2 = z ∧
    1 ≤ (civilFromDays z).2.1 ∧ (civilFromDays z).2.1 ≤ 12 ∧
    1 ≤ (civilFromDays z).2.2 ∧
    (civilFromDays z).2.2 ≤ daysInMonth (civilFromDays z).1 (civilFromDays z).2.1 := by
  obtain ⟨hdoe, hdoelt⟩ := doeOf_spec z
  obtain ⟨hA1, hA2, hA3⟩ := yoeOf_bracket (doeOf z) hdoelt
  obtain ⟨hL1, hL2, hLiff⟩ := eraYearLen (yoeOf (doeOf z)) hA2
  have hdoyle : doeOf z - doeStart (yoeOf (doeOf z)) ≤ 365 := by
    by_cases h399 : yoeOf (doeOf z) = 399
    · rw [if_pos h399] at hA3 hL2
      omega
    · rw [if_neg h399] at hA3 hL2
      omega
  obtain ⟨hM1, hM2, hM3⟩ := mp_bracket (doeOf z - doeStart (yoeOf (doeOf z))) hdoyle
  have hc1 : (civilFromDays z).1 = eraOf z * 400 + (yoeOf (doeOf z) : Int) +
      (if (if mpOfDoy (doeOf z - doeStart (yoeOf (doeOf z))) < 10
            then mpOfDoy (doeOf z - doeStart (yoeOf (doeOf z))) + 3
            else mpOfDoy (doeOf z - doeStart (yoeOf (doeOf z))) - 9) ≤ 2 then 1 else 0) := rfl
  have hc2 : (civilFromDays z).2.1 =
      (if mpOfDoy (doeOf z - doeStart (yoeOf (doeOf z))) < 10
        then mpOfDoy (doeOf z - doeStart (yoeOf (doeOf z))) + 3
        else mpOfDoy (doeOf z - doeStart (yoeOf (doeOf z))) - 9) := rfl
  have hc3 : (civilFromDays z).2.2 = doeOf z - doeStart (yoeOf (doeOf z)) -
      doyStart (mpOfDoy (doeOf z - doeStart (yoeOf (doeOf z)))) + 1 := rfl
  rw [hc1, hc2, hc3]
  rw [daysFromCivil_shift (eraOf z) (yoeOf (doeOf z)) hA2
    (mpOfDoy (doeOf z - doeStart (yoeOf (doeOf z)))) hM1]
  refine ⟨by omega, ?_, ?_, by omega, ?_⟩
  · split <;> omega
  · split <;> omega
  · generalize hMg : mpOfDoy (doeOf z - doeStart (yoeOf (doeOf z))) = M at hM1 hM2 hM3 ⊢
    by_cases hFeb : M = 11
    · rw [hFeb] at hM2 hM3 ⊢
      rw [if_neg (by norm_num : ¬ ((11:Nat) < 10))]
      rw [if_pos (by norm_num : (11 - 9 : Nat) ≤ 2)]
      show doeOf z - doeStart (yoeOf (doeOf z)) - doyStart 11 + 1 ≤
        daysInMonth (eraOf z * 400 + (yoeOf (doeOf z) : Int) + 1) (11 - 9)
      rw [show (11 - 9 : Nat) = 2 from rfl]
      rw [daysInMonth, if_neg (by norm_num), if_neg (by norm_num)]
      have hcast : eraOf z * 400 + (yoeOf (doeOf z) : Int) + 1
          = eraOf z * 400 + ((yoeOf (doeOf z) + 1 : Nat) : Int) := by push_cast; ring
      rw [hcast]
      have hshift := isLeapY_shift (eraOf z) (yoeOf (doeOf z) + 1) (by omega) (by omega)
      rw [doyStart] at hM2 hM3 ⊢
      by_cases hleap : isLeapY (eraOf z * 400 + ((yoeOf (doeOf z) + 1 : Nat) : Int)) = true
      · rw [if_pos hleap]
        rw [hshift] at hleap
        have h366 : (if yoeOf (doeOf z) = 399 then 146097 else doeStart (yoeOf (doeOf z) + 1))
            - doeStart (yoeOf (doeOf z)) = 366 := hLiff.mpr (by omega)
        by_cases h399 : yoeOf (doeOf z) = 399
        · rw [if_pos h399] at hA3 h366 hL1 hL2
          omega
        · rw [if_neg h399] at hA3 h366 hL1 hL2
          omega
      · rw [if_neg hleap]
        rw [hshift] at hleap
        have h365 : (if yoeOf (doeOf z) = 399 then 146097 else doeStart (yoeOf (doeOf z) + 1))
            - doeStart (yoeOf (doeOf z)) ≠ 366 := by
          intro hx
          have hx2 := hLiff.mp hx
          exact hleap (by omega)
        by_cases h399 : yoeOf (doeOf z) = 399
        · rw [if_pos h399] at hA3 h365 hL1 hL2
          omega
        · rw [if_neg h399] at hA3 h365 hL1 hL2
          omega
    · have hM11 : M < 11 := by omega
      rw [monthLen_eq M hM11]
      omega

/-! ### JavaScript dates

A `Date` value is its epoch-milliseconds time value, `none` for Invalid Date.
`toISOString` and the ISO 8601 paths of the `Date(string)` constructor are
implemented from ECMA-262 (TimeClip bound 8.64e15; expanded ±6-digit years;
date-only forms interpreted as UTC; the host time zone is modelled as UTC and
implementation-defined non-ISO fallback formats parse to Invalid Date). -/

/-- TimeClip: a millisecond value is a valid time value iff within ±8.64e15. -/
def mkDate (ms : Int) : Option Int :=
  if ms.natAbs ≤ 8640000000000000 then some ms else none

/-- Year field of `toISOString`: four digits, or sign plus six digits outside 0–9999. -/
def yearChars (y : Int) : List Char :=
  if 0 ≤ y ∧ y ≤ 9999 then padNat 4 y.toNat
  else (if y < 0 then '-' else '+') :: padNat 6 y.natAbs

/-- Date part `YYYY-MM-DD` of `toISOString` for a day number. -/
def isoDateChars (day : Int) : List Char :=
  yearChars (civilFromDays day).1
    ++ '-' :: padNat 2 (civilFromDays day).2.1 ++ '-' :: padNat 2 (civilFromDays day).2.2

/-- Character list of `Date.prototype.toISOString` for a valid time value. -/
def isoChars (ms : Int) : List Char :=
  let tod := (ms % 86400000).toNat
  isoDateChars (ms / 86400000)
    ++ 'T' :: padNat 2 (tod / 3600000)
    ++ ':' :: padNat 2 (tod % 3600000 / 60000)
    ++ ':' :: padNat 2 (tod % 60000 / 1000)
    ++ '.' :: padNat 3 (tod % 1000) ++ ['Z']

/-- String of `Date.prototype.toISOString` for a valid time value. -/
def toISOString (ms : Int) : String := String.mk (isoChars ms)

/-- Read exactly `n` decimal digits, returning their value and the rest. -/
def parseFixed (n : Nat) (cs : List Char) : Option (Nat × List Char) :=
  if (cs.take n).length = n ∧ (cs.take n).all isDigitCh then some (bigVal (cs.take n), cs.drop n)
  else none

/-- Consume one expected character. -/
def expectCh (c : Char) : List Char → Option (List Char)
  | x :: r => if x = c then some r else none
  | [] => none

/-- Year field of the ISO date format: `YYYY`, or `±YYYYYY` (a negative expanded
year of all zeroes is ruled out, per the grammar). -/
def parseYearPart (cs : List Char) : Option (Int × List Char) :=
  match cs with
  | [] => none
  | c :: r =>
    if c = '+' then (parseFixed 6 r).map (fun p => ((p.1 : Int), p.2))
    else if c = '-' then
      (parseFixed 6 r).bind (fun p =>
        if p.1 = 0 then none else some (-(p.1 : Int), p.2))
    else (parseFixed 4 (c :: r)).map (fun p => ((p.1 : Int), p.2))

/-- Optional `-MM` and `-DD` fields; omitted fields default to 1. -/
def parseMonthDay (cs : List Char) : Option (Nat × Nat × List Char) :=
  match expectCh '-' cs with
  | none => some (1, 1, cs)
  | some r1 =>
    (parseFixed 2 r1).bind fun pm =>
      match expectCh '-' pm.2 with
      | none => some (pm.1, 1, pm.2)
      | some r2 => (parseFixed 2 r2).map fun pd => (pm.1, pd.1, pd.2)

/-- Optional `:SS` and `.sss` fields of the time part. -/
def parseSecMs (cs : List Char) : Option (Nat × Nat × List Char) :=
  match expectCh ':' cs with
  | none => some (0, 0, cs)
  | some r3 =>
    (parseFixed 2 r3).bind fun ps =>
      match expectCh '.' ps.2 with
      | none => some (ps.1, 0, ps.2)
      | some r4 => (parseFixed 3 r4).map fun pms => (ps.1, pms.1, pms.2)

/-- Optional time part `THH:MM[:SS[.sss]]`; absent time means midnight.  Returns
the millisecond-of-day and the rest of the input. -/
def parseTimePart (cs : List Char) : Option (Nat × List Char) :=
  match cs with
  | [] => some (0, [])
  | _ =>
    (expectCh 'T' cs).bind fun r1 =>
    (parseFixed 2 r1).bind fun ph =>
    (expectCh ':' ph.2).bind fun r2 =>
    (parseFixed 2 r2).bind fun pmi =>
    (parseSecMs pmi.2).bind fun ssms =>
    if ph.1 ≤ 23 ∧ pmi.1 ≤ 59 ∧ ssms.1 ≤ 59 then
      some (ph.1 * 3600000 + pmi.1 * 60000 + ssms.1 * 1000 + ssms.2.1, ssms.2.2)
    else none

/-- Model of the ISO paths of `Date.parse` / `new Date(string)`: returns the time
value, or `none` (Invalid Date) when the string does not match the Date Time
String Format, has out-of-range components, or leaves unconsumed input other
than a final `Z` designator. -/
def dateParseChars (cs : List Char) : Option Int :=
  (parseYearPart cs).bind fun py =>
  (parseMonthDay py.2).bind fun pmd =>
  if 1 ≤ pmd.1 ∧ pmd.1 ≤ 12 ∧ 1 ≤ pmd.2.1 ∧ pmd.2.1 ≤ daysInMonth py.1 pmd.1 then
    (parseTimePart pmd.2.2).bind fun pt =>
    (match pt.2 with
     | [] => some 0
     | ['Z'] => some 0
     | _ => none).bind fun _ =>
    mkDate (daysFromCivil py.1 pmd.1 pmd.2.1 * 86400000 + (pt.1 : Int))
  else none

/-- Model of `new Date(string)`. -/
def dateParseStr (s : String) : Option Int := dateParseChars s.data

theorem parseFixed_pad (n v : Nat) (rest : List Char) (hn : 1 ≤ n) (hv : v < 10 ^ n) :
    parseFixed n (padNat n v ++ rest) = some (v, rest) := by
  obtain ⟨hlen, hval, hdig⟩ := padNat_spec n v hn hv
  have htake : (padNat n v ++ rest).take n = padNat n v := by
    have h := List.take_left (padNat n v) rest
    rwa [hlen] at h
  have hdrop : (padNat n v ++ rest).drop n = rest := by
    have h := List.drop_left (padNat n v) rest
    rwa [hlen] at h
  rw [parseFixed, htake, hdrop, if_pos]
  · rw [hval]
  · exact ⟨hlen, List.all_eq_true.mpr hdig⟩

theorem parseYearPart_pad (y : Int) (rest : List Char) (h : y.natAbs < 1000000) :
    parseYearPart (yearChars y ++ rest) = some (y, rest) := by
  rw [yearChars]
  by_cases h4 : 0 ≤ y ∧ y ≤ 9999
  · rw [if_pos h4]
    have hv : y.toNat < 10 ^ 4 := by omega
    obtain ⟨hlen, hval, hdig⟩ := padNat_spec 4 y.toNat (by norm_num) hv
    have hne : padNat 4 y.toNat ≠ [] := by
      intro hc
      rw [hc] at hlen
      simp at hlen
    obtain ⟨c, t, hct⟩ := List.exists_cons_of_ne_nil hne
    have hcd : isDigitCh c = true := by
      apply hdig
      rw [hct]
      exact List.mem_cons_self _ _
    rw [hct, List.cons_append, parseYearPart]
    rw [if_neg (isDigitCh_ne_ch c '+' hcd (by decide)),
        if_neg (isDigitCh_ne_ch c '-' hcd (by decide))]
    rw [← List.cons_append, ← hct]
    rw [parseFixed_pad 4 y.toNat rest (by norm_num) hv]
    rw [Option.map_some']
    have hyy : ((y.toNat : Int)) = y := by omega
    rw [hyy]
  · rw [if_neg h4]
    by_cases hneg : y < 0
    · rw [if_pos hneg, List.cons_append, parseYearPart]
      rw [if_neg (by decide), if_pos rfl]
      rw [parseFixed_pad 6 y.natAbs rest (by norm_num) (by omega)]
      rw [Option.some_bind]
      rw [if_neg (by omega)]
      congr 2
      omega
    · rw [if_neg hneg, List.cons_append, parseYearPart]
      rw [if_pos rfl]
      rw [parseFixed_pad 6 y.natAbs rest (by norm_num) (by omega)]
      rw [Option.map_some']
      congr 2
      omega

theorem parseMonthDay_pad (m d : Nat) (rest : List Char) (hm : m < 100) (hd : d < 100) :
    parseMonthDay ('-' :: (padNat 2 m ++ '-' :: (padNat 2 d ++ rest))) = some (m, d, rest) := by
  rw [parseMonthDay]
  simp only [show expectCh '-' ('-' :: (padNat 2 m ++ '-' :: (padNat 2 d ++ rest)))
      = some (padNat 2 m ++ '-' :: (padNat 2 d ++ rest)) from by rw [expectCh, if_pos rfl]]
  rw [parseFixed_pad 2 m _ (by norm_num) (by omega)]
  rw [Option.some_bind]
  simp only [show expectCh '-' ('-' :: (padNat 2 d ++ rest)) = some (padNat 2 d ++ rest) from by
    rw [expectCh, if_pos rfl]]
  rw [parseFixed_pad 2 d rest (by norm_num) (by omega)]
  rw [Option.map_some']

theorem parseSecMs_pad (s msp : Nat) (rest : List Char) (hs : s < 100) (hmsp : msp < 1000) :
    parseSecMs (':' :: (padNat 2 s ++ '.' :: (padNat 3 msp ++ rest))) = some (s, msp, rest) := by
  rw [parseSecMs]
  simp only [show expectCh ':' (':' :: (padNat 2 s ++ '.' :: (padNat 3 msp ++ rest)))
      = some (padNat 2 s ++ '.' :: (padNat 3 msp ++ rest)) from by rw [expectCh, if_pos rfl]]
  rw [parseFixed_pad 2 s _ (by norm_num) (by omega)]
  rw [Option.some_bind]
  simp only [show expectCh '.' ('.' :: (padNat 3 msp ++ rest)) = some (padNat 3 msp ++ rest) from by
    rw [expectCh, if_pos rfl]]
  rw [parseFixed_pad 3 msp rest (by norm_num) (by omega)]
  rw [Option.map_some']

theorem parseTimePart_pad (h mi s msp : Nat) (rest : List Char)
    (hh : h ≤ 23) (hmi : mi ≤ 59) (hs : s ≤ 59) (hmsp : msp < 1000) :
    parseTimePart ('T' :: (padNat 2 h ++ ':' :: (padNat 2 mi ++ ':' :: (padNat 2 s ++ '.' :: (padNat 3 msp ++ rest)))))
      = some (h * 3600000 + mi * 60000 + s * 1000 + msp, rest) := by
  rw [parseTimePart]
  simp only [show expectCh 'T' ('T' :: (padNat 2 h ++ ':' :: (padNat 2 mi ++ ':' :: (padNat 2 s ++ '.' :: (padNat 3 msp ++ rest)))))
      = some (padNat 2 h ++ ':' :: (padNat 2 mi ++ ':' :: (padNat 2 s ++ '.' :: (padNat 3 msp ++ rest)))) from by
    rw [expectCh, if_pos rfl]]
  rw [Option.some_bind]
  rw [parseFixed_pad 2 h _ (by norm_num) (by omega)]
  rw [Option.some_bind]
  simp only [show expectCh ':' (':' :: (padNat 2 mi ++ ':' :: (padNat 2 s ++ '.' :: (padNat 3 msp ++ rest))))
      = some (padNat 2 mi ++ ':' :: (padNat 2 s ++ '.' :: (padNat 3 msp ++ rest))) from by
    rw [expectCh, if_pos rfl]]
  rw [Option.some_bind]
  rw [parseFixed_pad 2 mi _ (by norm_num) (by omega)]
  rw [Option.some_bind]
  rw [parseSecMs_pad s msp rest (by omega) hmsp]
  rw [Option.some_bind]
  rw [if_pos ⟨hh, hmi, hs⟩]
  exact fun hx => List.cons_ne_nil _ _ hx

theorem daysInMonth_le31 (y : Int) (m : Nat) : daysInMonth y m ≤ 31 := by
  rw [daysInMonth]
  split
  · norm_num
  · split
    · norm_num
    · split <;> norm_num

theorem civil_year_bound (day : Int) (h : day.natAbs ≤ 100000000) :
    (civilFromDays day).1.natAbs < 1000000 := by
  have hc1 : (civilFromDays day).1 = eraOf day * 400 + (yoeOf (doeOf day) : Int) +
      (if (if mpOfDoy (doeOf day - doeStart (yoeOf (doeOf day))) < 10
            then mpOfDoy (doeOf day - doeStart (yoeOf (doeOf day))) + 3
            else mpOfDoy (doeOf day - doeStart (yoeOf (doeOf day))) - 9) ≤ 2
        then 1 else 0) := rfl
  have hyoe : yoeOf (doeOf day) ≤ 399 := (yoeOf_bracket _ (doeOf_spec day).2).2.1
  rw [hc1, eraOf]
  split <;> omega

/-- Parsing the full ISO rendering of a valid time value recovers the value:
the stored `date` field survives a stringify/parse storage round trip. -/
theorem dateParse_isoChars (ms : Int) (h : ms.natAbs ≤ 8640000000000000) :
    dateParseChars (isoChars ms) = some ms := by
  have hday : (ms / 86400000).natAbs ≤ 100000000 := by omega
  obtain ⟨hinv, hm1, hm2, hd1, hd2⟩ := civilFromDays_spec (ms / 86400000)
  have hyb := civil_year_bound (ms / 86400000) hday
  have hd31 := daysInMonth_le31 (civilFromDays (ms / 86400000)).1 (civilFromDays (ms / 86400000)).2.1
  have htod0 : 0 ≤ ms % 86400000 := Int.emod_nonneg _ (by norm_num)
  have htodlt : ms % 86400000 < 86400000 := Int.emod_lt_of_pos _ (by norm_num)
  rw [dateParseChars, isoChars, isoDateChars]
  simp only [List.append_assoc, List.cons_append]
  rw [parseYearPart_pad _ _ (by omega)]
  simp only [Option.some_bind]
  rw [parseMonthDay_pad _ _ _ (by omega) (by omega)]
  simp only [Option.some_bind]
  rw [if_pos ⟨hm1, hm2, hd1, hd2⟩]
  rw [parseTimePart_pad _ _ _ _ _ (by omega) (by omega) (by omega) (by omega)]
  simp only [Option.some_bind]
  rw [hinv, mkDate]
  split
  · congr 1
    omega
  · exfalso
    next hcond => exact hcond (by omega)

/-- Parsing the date-only part of the ISO rendering (the CSV export format)
yields midnight UTC of that calendar day: the time value truncated to whole days. -/
theorem dateParse_isoDateChars (ms : Int) (h : ms.natAbs ≤ 8640000000000000) :
    dateParseChars (isoDateChars (ms / 86400000)) = some (ms / 86400000 * 86400000) := by
  have hday : (ms / 86400000).natAbs ≤ 100000000 := by omega
  obtain ⟨hinv, hm1, hm2, hd1, hd2⟩ := civilFromDays_spec (ms / 86400000)
  have hyb := civil_year_bound (ms / 86400000) hday
  have hd31 := daysInMonth_le31 (civilFromDays (ms / 86400000)).1 (civilFromDays (ms / 86400000)).2.1
  rw [dateParseChars, isoDateChars]
  simp only [List.append_assoc, List.cons_append]
  have hglue : ('-' :: (padNat 2 (civilFromDays (ms / 86400000)).2.1 ++
      '-' :: padNat 2 (civilFromDays (ms / 86400000)).2.2))
      = '-' :: (padNat 2 (civilFromDays (ms / 86400000)).2.1 ++
        '-' :: (padNat 2 (civilFromDays (ms / 86400000)).2.2 ++ [])) := by
    simp
  rw [show parseYearPart (yearChars (civilFromDays (ms / 86400000)).1 ++
      '-' :: (padNat 2 (civilFromDays (ms / 86400000)).2.1 ++
        '-' :: padNat 2 (civilFromDays (ms / 86400000)).2.2))
      = some ((civilFromDays (ms / 86400000)).1,
        '-' :: (padNat 2 (civilFromDays (ms / 86400000)).2.1 ++
          '-' :: padNat 2 (civilFromDays (ms / 86400000)).2.2)) from
    parseYearPart_pad _ _ (by omega)]
  simp only [Option.some_bind]
  rw [hglue]
  rw [parseMonthDay_pad _ _ _ (by omega) (by omega)]
  simp only [Option.some_bind]
  rw [if_pos ⟨hm1, hm2, hd1, hd2⟩]
  rw [show parseTimePart ([] : List Char) = some (0, []) from rfl]
  simp only [Option.some_bind]
  rw [hinv, mkDate]
  split
  · congr 1
    omega
  · exfalso
    next hcond => exact hcond (by omega)

theorem yearChars_classes (y : Int) :
    ∀ c ∈ yearChars y, isDigitCh c = true ∨ c = '-' ∨ c = '+' := by
  intro c hc
  rw [yearChars] at hc
  by_cases h4 : 0 ≤ y ∧ y ≤ 9999
  · rw [if_pos h4] at hc
    exact Or.inl ((padNat_spec 4 y.toNat (by norm_num) (by omega)).2.2 c hc)
  · rw [if_neg h4] at hc
    rcases List.mem_cons.mp hc with h | h
    · subst h
      split
      · right; left; rfl
      · right; right; rfl
    · left
      exact padChars_digits _ _ (natChars_digits _) c h

theorem isoDateChars_classes (day : Int) :
    ∀ c ∈ isoDateChars day, isDigitCh c = true ∨ c = '-' ∨ c = '+' := by
  intro c hc
  rw [isoDateChars] at hc
  simp only [List.cons_append, List.append_assoc] at hc
  rcases List.mem_append.mp hc with h | h
  · exact yearChars_classes _ c h
  · rcases List.mem_cons.mp h with h1 | h1
    · right; left; exact h1
    · rcases List.mem_append.mp h1 with h2 | h2
      · left; exact padChars_digits _ _ (natChars_digits _) c h2
      · rcases List.mem_cons.mp h2 with h3 | h3
        · right; left; exact h3
        · left; exact padChars_digits _ _ (natChars_digits _) c h3

theorem isoDateChars_plain (day : Int) :
    ∀ c ∈ isoDateChars day, c ≠ ',' ∧ c ≠ '"' ∧ c ≠ '\n' ∧ c ≠ 'T' ∧ jsWsCh c = false := by
  intro c hc
  rcases isoDateChars_classes day c hc with h | h | h
  · exact ⟨isDigitCh_ne_ch c ',' h (by decide), isDigitCh_ne_ch c '"' h (by decide),
      isDigitCh_ne_ch c '\n' h (by decide), isDigitCh_ne_ch c 'T' h (by decide),
      isDigitCh_not_ws c h⟩
  · subst h
    exact ⟨by decide, by decide, by decide, by decide, by decide⟩
  · subst h
    exact ⟨by decide, by decide, by decide, by decide, by decide⟩

/-! ### CSV codec of transaction.service.ts

The per-cell escaper of `exportToCSV` (wrap in quotes when the cell contains a
comma, quote, or newline, doubling internal quotes), and the per-character line
scanner `parseCSVLine` of the import path, modelled over character lists. -/

/-- Replace every `"` by `""` (the regex replace in the export escaper). -/
def escChars : List Char → List Char
  | [] => []
  | c :: cs => if c = '"' then '"' :: '"' :: escChars cs else c :: escChars cs

/-- Model of the export cell escaper: quote and double quotes when the cell
contains a comma, double quote, or newline; otherwise leave the cell as is. -/
def escapeCellChars (cell : List Char) : List Char :=
  if ',' ∈ cell ∨ '"' ∈ cell ∨ '\n' ∈ cell then
    '"' :: (escChars cell ++ ['"'])
  else cell

/-- String form of the export cell escaper. -/
def escapeCell (cell : String) : String := String.mk (escapeCellChars cell.data)

/-- Drop trailing JavaScript white space. -/
def dropEndWs (cs : List Char) : List Char := (cs.reverse.dropWhile jsWsCh).reverse

/-- Model of `String.prototype.trim`. -/
def jsTrimChars (cs : List Char) : List Char := dropEndWs (cs.dropWhile jsWsCh)

/-- String form of `trim`. -/
def jsTrim (s : String) : String := String.mk (jsTrimChars s.data)

/-- Model of `String.prototype.split` with a single-character separator. -/
def splitChChars (sep : Char) : List Char → List (List Char)
  | [] => [[]]
  | c :: cs =>
    if c = sep then [] :: splitChChars sep cs
    else
      match splitChChars sep cs with
      | [] => [[c]]
      | p :: ps => (c :: p) :: ps

/-- String form of single-character `split`. -/
def splitCh (sep : Char) (s : String) : List String :=
  (splitChChars sep s.data).map String.mk

/-- Model of `String.prototype.toLowerCase` (ASCII range, which is all the
service compares). -/
def jsToLower (s : String) : String := String.mk (s.data.map Char.toLower)

/-- The per-character CSV line scanner (`parseCSVLine`): quote characters toggle
quote mode and are dropped; a comma outside quotes ends the field; every field is
trimmed.  `cur` is the accumulated current field. -/
def csvAux : List Char → Bool → List Char → List (List Char)
  | [], _, cur => [jsTrimChars cur]
  | c :: cs, inQ, cur =>
    if c = '"' then csvAux cs (!inQ) cur
    else if c = ',' ∧ inQ = false then jsTrimChars cur :: csvAux cs inQ []
    else csvAux cs inQ (cur ++ [c])

/-- Model of `parseCSVLine`. -/
def parseCSVLine (line : String) : List String := (csvAux line.data false []).map String.mk

theorem splitChChars_ne_nil (sep : Char) (cs : List Char) : splitChChars sep cs ≠ [] := by
  induction cs with
  | nil => simp [splitChChars]
  | cons c cs ih =>
    rw [splitChChars]
    by_cases h : c = sep
    · rw [if_pos h]; simp
    · rw [if_neg h]
      cases hs : splitChChars sep cs with
      | nil => simp
      | cons p ps => simp

theorem splitChChars_no_sep (sep : Char) (cs : List Char) (h : sep ∉ cs) :
    splitChChars sep cs = [cs] := by
  induction cs with
  | nil => rfl
  | cons c cs ih =>
    rw [splitChChars]
    have hc : ¬ c = sep := fun hx => h (hx ▸ List.mem_cons_self _ _)
    rw [if_neg hc]
    rw [ih (fun hx => h (List.mem_cons_of_mem _ hx))]

theorem splitChChars_append (sep : Char) (a b : List Char) (h : sep ∉ a) :
    splitChChars sep (a ++ sep :: b) = a :: splitChChars sep b := by
  induction a with
  | nil =>
    rw [List.nil_append, splitChChars, if_pos rfl]
  | cons c cs ih =>
    have hc : ¬ c = sep := fun hx => h (hx ▸ List.mem_cons_self _ _)
    rw [List.cons_append, splitChChars, if_neg hc]
    rw [ih (fun hx => h (List.mem_cons_of_mem _ hx))]

theorem dropWhile_not_any {p : Char → Bool} {l : List Char} (h : ∀ c ∈ l, p c = false) :
    l.dropWhile p = l := by
  cases l with
  | nil => rfl
  | cons c cs =>
    rw [List.dropWhile_cons, h c (List.mem_cons_self _ _)]
    simp

theorem jsTrim_plain (cs : List Char) (h : ∀ c ∈ cs, jsWsCh c = false) :
    jsTrimChars cs = cs := by
  rw [jsTrimChars, dropWhile_not_any h, dropEndWs,
    dropWhile_not_any (fun c hc => h c (List.mem_reverse.mp hc)), List.reverse_reverse]

theorem dropWhile_append_head {p : Char → Bool} (x y : List Char)
    (hy : ∀ c, y.head? = some c → p c = false) :
    (x ++ y).dropWhile p = x.dropWhile p ++ y := by
  induction x with
  | nil =>
    rw [List.nil_append, List.dropWhile_nil, List.nil_append, dropWhile_head_not hy]
  | cons c cs ih =>
    rw [List.cons_append, List.dropWhile_cons, List.dropWhile_cons]
    by_cases hc : p c = true
    · rw [hc]
      simpa using ih
    · rw [Bool.not_eq_true] at hc
      rw [hc]
      simp [List.cons_append]

theorem dropEndWs_append (A B : List Char)
    (hl : ∀ c, A.getLast? = some c → jsWsCh c = false) :
    dropEndWs (A ++ B) = A ++ dropEndWs B := by
  rw [dropEndWs, List.reverse_append]
  rw [dropWhile_append_head _ _ (fun c hc => hl c (by rwa [List.head?_reverse] at hc))]
  rw [List.reverse_append, List.reverse_reverse, dropEndWs]

theorem jsTrim_concat (A B : List Char) (hne : A ≠ [])
    (hh : ∀ c, A.head? = some c → jsWsCh c = false)
    (hl : ∀ c, A.getLast? = some c → jsWsCh c = false) :
    jsTrimChars (A ++ B) = A ++ dropEndWs B := by
  rw [jsTrimChars]
  obtain ⟨c, t, rfl⟩ := List.exists_cons_of_ne_nil hne
  rw [List.cons_append, List.dropWhile_cons]
  rw [hh c rfl]
  simp only [Bool.false_eq_true, if_false]
  rw [← List.cons_append, dropEndWs_append _ _ hl]

/-- JavaScript `Array.prototype.join` with a one-character separator. -/
def joinSep (sep : Char) : List (List Char) → List Char
  | [] => []
  | [x] => x
  | x :: xs => x ++ sep :: joinSep sep xs

theorem csvAux_accum (cell : List Char) (h : ∀ c ∈ cell, ¬ c = '"' ∧ ¬ c = ',') :
    ∀ (rest cur : List Char),
      csvAux (cell ++ rest) false cur = csvAux rest false (cur ++ cell) := by
  induction cell with
  | nil => intro rest cur; rw [List.nil_append, List.append_nil]
  | cons c cs ih =>
    intro rest cur
    obtain ⟨hq, hcm⟩ := h c (List.mem_cons_self _ _)
    rw [List.cons_append, csvAux, if_neg hq, if_neg (by simp [hcm])]
    rw [ih (fun x hx => h x (List.mem_cons_of_mem _ hx)) rest (cur ++ [c])]
    rw [List.append_assoc]
    rfl

theorem csvAux_comma (rest cur : List Char) :
    csvAux (',' :: rest) false cur = jsTrimChars cur :: csvAux rest false [] := by
  rw [csvAux, if_neg (by decide), if_pos ⟨rfl, rfl⟩]

theorem csvAux_cells (cells : List (List Char)) :
    ∀ (cell cur : List Char),
      (∀ x ∈ cell :: cells, ∀ c ∈ x, ¬ c = '"' ∧ ¬ c = ',') →
      csvAux (joinSep ',' (cell :: cells)) false cur
        = jsTrimChars (cur ++ cell) :: cells.map jsTrimChars := by
  induction cells with
  | nil =>
    intro cell cur h
    rw [joinSep]
    rw [show cell = cell ++ [] from (List.append_nil cell).symm]
    rw [csvAux_accum _ (h cell (List.mem_cons_self _ _)) [] cur]
    rw [csvAux, List.map_nil, List.append_nil]
  | cons c2 cs2 ih =>
    intro cell cur h
    rw [show joinSep ',' (cell :: c2 :: cs2) = cell ++ ',' :: joinSep ',' (c2 :: cs2) from rfl]
    rw [csvAux_accum _ (h cell (List.mem_cons_self _ _)) _ cur]
    rw [csvAux_comma]
    rw [ih c2 [] (fun x hx => h x (List.mem_cons_of_mem _ hx))]
    rw [List.nil_append, List.map_cons]

/-! ### JSON values, the storage slot, and transactions

`localStorage` is modelled at the JSON-value level (`Storage := Option JsVal`):
a stored string is identified with its parsed JSON value, `none` is the absent
slot.  `getTransactions` follows the dynamic semantics of
`JSON.parse(stored).map(t => ({...t, date: new Date(t.date)}))`: `.map` on a
non-array throws, reading `t.date` on `null`/`undefined` throws, and junk
elements are coerced into the typed `Transaction` record by coercions chosen to
agree with every observation the service makes of them (set membership against
constructed `<millis>-<index>` ids, sort keys, re-serialization). -/

inductive JsVal where
  | undef : JsVal
  | null : JsVal
  | bool (b : Bool) : JsVal
  | num (n : JSNum) : JsVal
  | str (s : String) : JsVal
  | arr (xs : List JsVal) : JsVal
  | obj (fields : List (String × JsVal)) : JsVal

/-- Property access on a non-null value; `none` is `undefined`. -/
def jsGetF : JsVal → String → Option JsVal
  | .obj fields, k => (fields.find? (fun f => f.1 == k)).map (fun f => f.2)
  | _, _ => none

/-- In-memory transaction record (the interface of transaction.service.ts). -/
structure Transaction where
  id : String
  date : Option Int
  amount : JSNum
  type : String
  description : Option String
deriving DecidableEq

/-- Coercion of a stored `id` field.  JavaScript keeps the raw value in the
`Set`; since the service only ever tests membership of constructed
`<millis>-<index>` strings, coercing non-strings to display strings (which can
never contain an interior dash followed only by digits) is observationally
equivalent. -/
def coerceId : Option JsVal → String
  | some (.str s) => s
  | some (.num n) => n.toStr
  | some (.bool b) => if b then "true" else "false"
  | some .null => "null"
  | some (.arr _) => ","
  | some (.obj _) => "[object Object]"
  | _ => "undefined"

/-- Coercion of a stored `date` field: `new Date(t.date)`.  A number is truncated
toward zero and clipped; `null` coerces to the epoch; an ISO string parses;
object and array arguments (whose `toString` results almost never parse) are
modelled as Invalid Date. -/
def coerceDate : Option JsVal → Option Int
  | some (.str s) => dateParseStr s
  | some (.num (.finite m d)) => mkDate (Int.tdiv m (10 ^ d))
  | some (.num _) => none
  | some .null => some 0
  | some (.bool b) => some (if b then 1 else 0)
  | _ => none

/-- Coercion of a stored `amount` field.  Non-numbers are modelled as `NaN`:
the service never computes with stored amounts, and `JSON.stringify` writes
`null` for both, so the observations agree. -/
def coerceAmount : Option JsVal → JSNum
  | some (.num n) => n
  | _ => .nan

/-- Coercion of a stored `type` field; a non-string can never equal the two
type literals the service compares against. -/
def coerceTypeStr : Option JsVal → String
  | some (.str s) => s
  | _ => ""

/-- Coercion of a stored `description` field. -/
def coerceDesc : Option JsVal → Option String
  | some (.str s) => some s
  | _ => none

/-- Read one stored element: `({...t, date: new Date(t.date)})`.  Reading `t.date`
throws a TypeError when the element is `null` (or `undefined`). -/
def readTx : JsVal → Except String Transaction
  | .null => .error "TypeError"
  | .undef => .error "TypeError"
  | v => .ok { id := coerceId (jsGetF v "id"), date := coerceDate (jsGetF v "date"),
               amount := coerceAmount (jsGetF v "amount"),
               type := coerceTypeStr (jsGetF v "type"),
               description := coerceDesc (jsGetF v "description") }

/-- Model of `getTransactions` (transaction.service.ts lines 17–26): absent slot
gives `[]`; `.map` on a non-array payload throws; elements are read in order,
failing at the first `null` element. -/
def getTransactions : Option JsVal → Except String (List Transaction)
  | none => .ok []
  | some (.arr es) => es.mapM readTx
  | some _ => .error "TypeError"

/-- JSON.stringify of a number field: `NaN` and the infinities serialize as `null`. -/
def numToJson : JSNum → JsVal
  | .finite m d => .num (.finite m d)
  | _ => .null

/-- JSON.stringify of one transaction: `Date.prototype.toJSON` turns a valid date
into its ISO string and an invalid one into `null`; an absent description field
is omitted. -/
def stringifyTx (t : Transaction) : JsVal :=
  .obj ([("id", .str t.id),
         ("date", match t.date with | some ms => .str (toISOString ms) | none => .null),
         ("amount", numToJson t.amount),
         ("type", .str t.type)]
    ++ (match t.description with | some d => [("description", .str d)] | none => []))

/-- JSON.stringify of the whole list. -/
def stringifyList (ts : List Transaction) : JsVal := .arr (ts.map stringifyTx)

/-- Decimal string of an integer (`Number.prototype.toString` on an integer). -/
def intToStr (i : Int) : String := String.mk (intChars i)

/-- Decimal string of a natural number. -/
def natToStr (n : Nat) : String := String.mk (natChars n)

/-- Normalization of the optional description on create:
`description?.trim() || undefined`. -/
def descNorm : Option String → Option String
  | none => none
  | some s => if jsTrim s = "" then none else some (jsTrim s)

/-- Model of `addTransaction` (transaction.service.ts lines 28–39).  `now` is the
clock reading `Date.now()`; note the method has no date parameter: the stored
date is always `new Date()` (the current time).  Errors propagate from reading a
corrupt slot. -/
def addTransaction (storage : Option JsVal) (now : Int) (amount : JSNum)
    (ty : String) (description : Option String) : Except String (Option JsVal) :=
  (getTransactions storage).map fun transactions =>
    let newTransaction : Transaction :=
      { id := intToStr now, date := mkDate now, amount := amount, type := ty,
        description := descNorm description }
    some (stringifyList (transactions ++ [newTransaction]))

/-- Model of `clearTransactions` (lines 41–43): removes the slot. -/
def clearTransactions (_storage : Option JsVal) : Option JsVal := none

/-- Sort key of the comparator `(a, b) => a.date.getTime() - b.date.getTime()`.
`getTime()` of an Invalid Date is `NaN` and a `NaN` comparator result is treated
as `+0` by `Array.prototype.sort`; the resulting implementation-defined order
among invalid dates is modelled as ties at the epoch. -/
def dateKey (t : Transaction) : Int :=
  match t.date with
  | some ms => ms
  | none => 0

/-- Stable date sort (`Array.prototype.sort` is stable). -/
def sortByDate (ts : List Transaction) : List Transaction :=
  List.insertionSort (fun a b => dateKey a ≤ dateKey b) ts

/-- Parse and validate one data row (the body of the import loop, lines 86–107):
split into columns, require at least 3, parse date and amount, normalize the
type, build the row transaction with id `<millis>-<rowIndex>`. -/
def rowTx (i : Nat) (line : String) : Option Transaction :=
  let columns := parseCSVLine line
  if columns.length < 3 then none
  else
    let date := dateParseStr (columns.getD 0 "")
    let amount := parseFloatStr (columns.getD 1 "")
    let ty := jsTrim (jsToLower (columns.getD 2 ""))
    let description := match columns.get? 3 with
      | none => none
      | some ds => if jsTrim ds = "" then none else some (jsTrim ds)
    match date with
    | none => none
    | some ms =>
      if amount.isNaN ∨ (ty ≠ "savings" ∧ ty ≠ "spend") then none
      else some { id := intToStr ms ++ "-" ++ natToStr i, date := some ms,
                  amount := amount, type := ty, description := description }

/-- The import loop (lines 82–114): skip blank or invalid rows silently, drop
rows whose constructed id is already in the seen set, accumulate the rest in
order while growing the seen set. -/
def parseRows : List String → Nat → List String → List Transaction
  | [], _, _ => []
  | l :: rest, i, seen =>
    let line := jsTrim l
    if line = "" then parseRows rest (i + 1) seen
    else match rowTx i line with
      | none => parseRows rest (i + 1) seen
      | some t =>
        if seen.contains t.id then parseRows rest (i + 1) seen
        else t :: parseRows rest (i + 1) (t.id :: seen)

/-- Result record of `importFromCSV`. -/
structure ImportResult where
  success : Bool
  message : String
  count : Nat
deriving DecidableEq

/-- Model of `importFromCSV` (lines 69–139), returning the result together with
the updated storage.  All failure paths leave the storage untouched; the `catch`
of the try block converts a read error on a corrupt slot into a failure result. -/
def importFromCSV (storage : Option JsVal) (csvContent : String) :
    ImportResult × Option JsVal :=
  let lines := (splitCh '\n' csvContent).filter (fun l => jsTrim l ≠ "")
  if lines.length < 2 then
    ({ success := false,
       message := "CSV file must have at least a header and one data row", count := 0 },
     storage)
  else
    match getTransactions storage with
    | .error e =>
      ({ success := false, message := "Error importing CSV: " ++ e, count := 0 }, storage)
    | .ok existingTransactions =>
      let dataLines := lines.drop 1
      let transactions := parseRows dataLines 0 (existingTransactions.map (fun t => t.id))
      if transactions.length = 0 then
        ({ success := false, message := "No valid transactions found in CSV file",
           count := 0 }, storage)
      else
        ({ success := true,
           message := "Successfully imported " ++ natToStr transactions.length
             ++ " transaction(s)",
           count := transactions.length },
         some (stringifyList (sortByDate (existingTransactions ++ transactions))))

/-- Date part cell of the export: `t.date.toISOString().split('T')[0]`. -/
def exportDateCell (ms : Int) : List Char := (splitChChars 'T' (isoChars ms)).headI

/-- Model of `exportToCSV` (lines 45–67): header row, one row per stored
transaction in order, cells escaped, rows joined by newlines.  `toISOString`
throws a RangeError on an invalid stored date. -/
def exportRowCells (t : Transaction) : Except String (List (List Char)) :=
  match t.date with
  | none => Except.error "RangeError"
  | some ms => Except.ok
      [exportDateCell ms, t.amount.toChars, t.type.data, (t.description.getD "").data]

/-- Model of `exportToCSV`, continued: header row, escaped cells, newline-joined. -/
def exportToCSV (storage : Option JsVal) : Except String String :=
  (getTransactions storage).bind fun transactions =>
    (transactions.mapM exportRowCells).map fun rows =>
      String.mk (joinSep '\n'
        ("Date,Amount,Type,Description".data
          :: rows.map (fun row => joinSep ',' (row.map escapeCellChars))))

/-- Numeric truthiness: `0`, `-0` and `NaN` are falsy. -/
def truthyNum : JSNum → Bool
  | .nan => false
  | .finite m _ => !(m == 0)
  | _ => true

/-- Model of the component's `addSavings` (app.component.ts lines 88–98).  The
component builds a `Date` from the date input field and passes it as a fourth
argument, but `addTransaction` has only three parameters, so JavaScript drops
the argument; the built date is bound here to an unused local to mirror that. -/
def addSavings (savingsAmount : Option JSNum) (savingsDescription : String)
    (savingsDate : String) (now : Int) (storage : Option JsVal) :
    Except String (Option JsVal) :=
  match savingsAmount with
  | none => .ok storage
  | some amt =>
    if truthyNum amt then
      let _date : Option Int :=
        if savingsDate ≠ "" then dateParseStr savingsDate else mkDate now
      addTransaction storage now amt "savings" (some savingsDescription)
    else .ok storage

/-- States of the storage slot reachable from the empty slot through the
service's three mutating operations (the component's handlers reduce to these).
The type argument of an interactive append is one of the two literals, as the
TypeScript signature enforces. -/
inductive Reachable : Option JsVal → Prop where
  | empty : Reachable none
  | add (s : Option JsVal) (now : Int) (amount : JSNum) (ty : String)
      (description : Option String) (s' : Option JsVal) :
      Reachable s → (ty = "savings" ∨ ty = "spend") →
      addTransaction s now amount ty description = .ok s' → Reachable s'
  | imp (s : Option JsVal) (text : String) (r : ImportResult) (s' : Option JsVal) :
      Reachable s → importFromCSV s text = (r, s') → Reachable s'
  | clear (s : Option JsVal) : Reachable s → Reachable (clearTransactions s)

/-! ### Storage round-trip and loop lemmas -/

/-- Dates the service can ever hold: absent, or clipped to the valid time range
(every constructor route goes through TimeClip or the ISO parser). -/
def dateOkT (t : Transaction) : Prop :=
  match t.date with
  | some ms => ms.natAbs ≤ 8640000000000000
  | none => True

/-- Normalization a transaction undergoes through one stringify/read cycle:
an invalid date was stored as `null` and is read back as the epoch; a `NaN` or
infinite amount was stored as `null` and is read back as `NaN`. -/
def normTx (t : Transaction) : Transaction :=
  { t with
    date := match t.date with | some ms => some ms | none => some 0,
    amount := match t.amount with | .finite m d => .finite m d | _ => .nan }

theorem dateParseStr_toISOString (ms : Int) (h : ms.natAbs ≤ 8640000000000000) :
    dateParseStr (toISOString ms) = some ms := by
  rw [dateParseStr, toISOString]
  exact dateParse_isoChars ms h

theorem readTx_stringifyTx (t : Transaction) (hd : dateOkT t) :
    readTx (stringifyTx t) = .ok (normTx t) := by
  obtain ⟨tid, tdate, tam, tty, tde⟩ := t
  cases tdate with
  | none => cases tde <;> cases tam <;> rfl
  | some ms =>
    rw [dateOkT] at hd
    simp only at hd
    cases tde <;> cases tam <;>
      simp [readTx, stringifyTx, normTx, jsGetF, numToJson, coerceId, coerceDate,
        coerceAmount, coerceTypeStr, coerceDesc, dateParseStr_toISOString ms hd,
        List.find?]

theorem getTransactions_stringifyList (ts : List Transaction)
    (h : ∀ t ∈ ts, dateOkT t) :
    getTransactions (some (stringifyList ts)) = .ok (ts.map normTx) := by
  show (ts.map stringifyTx).mapM readTx = Except.ok (ts.map normTx)
  induction ts with
  | nil => rfl
  | cons t rest ih =>
    rw [List.map_cons, List.map_cons, List.mapM_cons,
      readTx_stringifyTx t (h t (List.mem_cons_self t rest)),
      ih (fun x hx => h x (List.mem_cons_of_mem t hx))]
    rfl

theorem mkDate_clip (ms v : Int) (h : mkDate ms = some v) :
    v.natAbs ≤ 8640000000000000 := by
  rw [mkDate] at h
  by_cases hb : ms.natAbs ≤ 8640000000000000
  · rw [if_pos hb] at h
    injection h with h
    rw [← h]
    exact hb
  · rw [if_neg hb] at h
    exact Option.noConfusion h

theorem option_bind_clip {A : Type} (X : Option A) (f : A → Option Int) (v : Int)
    (hf : ∀ u w, f u = some w → w.natAbs ≤ 8640000000000000)
    (h : X.bind f = some v) : v.natAbs ≤ 8640000000000000 := by
  cases X with
  | none => exact Option.noConfusion h
  | some u =>
    rw [Option.some_bind] at h
    exact hf u v h

theorem dateParseChars_clip (cs : List Char) (v : Int)
    (h : dateParseChars cs = some v) : v.natAbs ≤ 8640000000000000 := by
  rw [dateParseChars] at h
  rcases hy : parseYearPart cs with _ | py
  · rw [hy, Option.none_bind] at h
    exact Option.noConfusion h
  · rw [hy, Option.some_bind] at h
    rcases hmd : parseMonthDay py.2 with _ | pmd
    · rw [hmd, Option.none_bind] at h
      exact Option.noConfusion h
    · rw [hmd, Option.some_bind] at h
      by_cases hc : 1 ≤ pmd.1 ∧ pmd.1 ≤ 12 ∧ 1 ≤ pmd.2.1 ∧ pmd.2.1 ≤ daysInMonth py.1 pmd.1
      · rw [if_pos hc] at h
        rcases ht : parseTimePart pmd.2.2 with _ | pt
        · rw [ht, Option.none_bind] at h
          exact Option.noConfusion h
        · rw [ht, Option.some_bind] at h
          exact option_bind_clip _ _ v (fun u w hw => mkDate_clip _ w hw) h
      · rw [if_neg hc] at h
        exact Option.noConfusion h

theorem coerceDate_ok (v : Option JsVal) (ms : Int) (h : coerceDate v = some ms) :
    ms.natAbs ≤ 8640000000000000 := by
  match v with
  | some (.str s) =>
    rw [coerceDate] at h
    exact dateParseChars_clip s.data ms h
  | some (.num (.finite m d)) =>
    rw [coerceDate] at h
    exact mkDate_clip _ ms h
  | some (.num .nan) | some (.num .posInf) | some (.num .negInf) =>
    exact Option.noConfusion h
  | some .null =>
    rw [coerceDate] at h
    injection h with h
    rw [← h]
    decide
  | some (.bool b) =>
    rw [coerceDate] at h
    injection h with h
    rw [← h]
    cases b <;> decide
  | some (.arr xs) | some (.obj fs) | some .undef | none =>
    exact Option.noConfusion h

theorem readTx_ok_date (v : JsVal) (t : Transaction) (h : readTx v = .ok t) :
    t.date = coerceDate (jsGetF v "date") := by
  cases v with
  | null => exact Except.noConfusion h
  | undef => exact Except.noConfusion h
  | bool b => injection h with h; rw [← h]
  | num n => injection h with h; rw [← h]
  | str s => injection h with h; rw [← h]
  | arr xs => injection h with h; rw [← h]
  | obj fs => injection h with h; rw [← h]

theorem readTx_dateOk (v : JsVal) (t : Transaction) (h : readTx v = .ok t) :
    dateOkT t := by
  have hd := readTx_ok_date v t h
  rw [dateOkT, hd]
  rcases hc : coerceDate (jsGetF v "date") with _ | ms0
  · exact trivial
  · show ms0.natAbs ≤ 8640000000000000
    exact coerceDate_ok _ ms0 hc

theorem mapM_readTx_dateOk (es : List JsVal) (ts : List Transaction)
    (h : es.mapM readTx = .ok ts) : ∀ t ∈ ts, dateOkT t := by
  induction es generalizing ts with
  | nil =>
    rw [List.mapM_nil] at h
    injection h with h
    rw [← h]
    intro t ht
    exact absurd ht (List.not_mem_nil t)
  | cons e rest ih =>
    rw [List.mapM_cons] at h
    rcases he : readTx e with er | t0
    · rw [he] at h
      exact Except.noConfusion h
    · rw [he] at h
      rcases hr : rest.mapM readTx with er | ts0
      · rw [hr] at h
        exact Except.noConfusion h
      · rw [hr] at h
        injection h with h
        rw [← h]
        intro t ht
        rcases List.mem_cons.mp ht with h1 | h2
        · rw [h1]
          exact readTx_dateOk e t0 he
        · exact ih ts0 hr t h2

theorem getTransactions_dateOk (s : Option JsVal) (ts : List Transaction)
    (h : getTransactions s = .ok ts) : ∀ t ∈ ts, dateOkT t := by
  match s with
  | none =>
    rw [getTransactions] at h
    injection h with h
    rw [← h]
    intro t ht
    exact absurd ht (List.not_mem_nil t)
  | some (.arr es) =>
    rw [getTransactions] at h
    exact mapM_readTx_dateOk es ts h
  | some .null | some .undef | some (.bool b) | some (.num n) | some (.str st)
  | some (.obj fs) =>
    exact Except.noConfusion h

theorem normTx_id (t : Transaction) : (normTx t).id = t.id := rfl

theorem normTx_dateOk (t : Transaction) (h : dateOkT t) : dateOkT (normTx t) := by
  obtain ⟨tid, tdate, tam, tty, tde⟩ := t
  cases tdate with
  | none =>
    show (0 : Int).natAbs ≤ 8640000000000000
    decide
  | some ms => exact h

/-! ### Row ids and the import loop -/

theorem append_cons_inj_of_not_mem (x : Char) (B D A C : List Char)
    (hB : x ∉ B) (hD : x ∉ D) (h : B ++ x :: A = D ++ x :: C) : B = D ∧ A = C := by
  induction B generalizing D with
  | nil =>
    cases D with
    | nil =>
      rw [List.nil_append, List.nil_append] at h
      injection h with h1 h2
      exact ⟨rfl, h2⟩
    | cons d D2 =>
      rw [List.nil_append, List.cons_append] at h
      injection h with h1 h2
      exact absurd (h1 ▸ List.mem_cons_self d D2) hD
  | cons b B2 ih =>
    cases D with
    | nil =>
      rw [List.nil_append, List.cons_append] at h
      injection h with h1 h2
      exact absurd (h1 ▸ List.mem_cons_self b B2) hB
    | cons d D2 =>
      rw [List.cons_append, List.cons_append] at h
      injection h with h1 h2
      obtain ⟨hbd, hac⟩ := ih D2 (fun hx => hB (List.mem_cons_of_mem b hx))
        (fun hx => hD (List.mem_cons_of_mem d hx)) h2
      exact ⟨by rw [h1, hbd], hac⟩

theorem dash_not_mem_natChars (n : Nat) : '-' ∉ natChars n := by
  intro hx
  have := natChars_digits n '-' hx
  exact absurd this (by decide)

theorem rowId_index_inj (ms1 ms2 : Int) (i1 i2 : Nat)
    (h : intToStr ms1 ++ "-" ++ natToStr i1 = intToStr ms2 ++ "-" ++ natToStr i2) :
    i1 = i2 := by
  have hdata : intChars ms1 ++ '-' :: natChars i1 = intChars ms2 ++ '-' :: natChars i2 := by
    have h1 : (intToStr ms1 ++ "-" ++ natToStr i1).data
        = intChars ms1 ++ '-' :: natChars i1 := by
      rw [String.data_append, String.data_append, List.append_assoc]
      rfl
    have h2 : (intToStr ms2 ++ "-" ++ natToStr i2).data
        = intChars ms2 ++ '-' :: natChars i2 := by
      rw [String.data_append, String.data_append, List.append_assoc]
      rfl
    rw [← h1, ← h2, h]
  have hrev : (natChars i1).reverse ++ '-' :: (intChars ms1).reverse
      = (natChars i2).reverse ++ '-' :: (intChars ms2).reverse := by
    have e1 : (natChars i1).reverse ++ '-' :: (intChars ms1).reverse
        = (intChars ms1 ++ '-' :: natChars i1).reverse := by
      rw [List.reverse_append, List.reverse_cons, List.append_assoc]
      rfl
    have e2 : (natChars i2).reverse ++ '-' :: (intChars ms2).reverse
        = (intChars ms2 ++ '-' :: natChars i2).reverse := by
      rw [List.reverse_append, List.reverse_cons, List.append_assoc]
      rfl
    rw [e1, e2, hdata]
  obtain ⟨hrb, _⟩ := append_cons_inj_of_not_mem '-' _ _ _ _
    (fun hx => dash_not_mem_natChars i1 (List.mem_reverse.mp hx))
    (fun hx => dash_not_mem_natChars i2 (List.mem_reverse.mp hx)) hrev
  have : natChars i1 = natChars i2 := List.reverse_injective hrb
  have hval : bigVal (natChars i1) = bigVal (natChars i2) := by rw [this]
  rw [bigVal_natChars, bigVal_natChars] at hval
  exact hval

/-- The row description column after extraction. -/
def rowDesc (line : String) : Option String :=
  match (parseCSVLine line).get? 3 with
  | none => none
  | some ds => if jsTrim ds = "" then none else some (jsTrim ds)

theorem rowTx_eq (i : Nat) (line : String) :
    rowTx i line =
      (if (parseCSVLine line).length < 3 then none
       else
         match dateParseStr ((parseCSVLine line).getD 0 "") with
         | none => none
         | some ms =>
           if (parseFloatStr ((parseCSVLine line).getD 1 "")).isNaN
               ∨ (jsTrim (jsToLower ((parseCSVLine line).getD 2 "")) ≠ "savings"
                  ∧ jsTrim (jsToLower ((parseCSVLine line).getD 2 "")) ≠ "spend") then
             none
           else
             some { id := intToStr ms ++ "-" ++ natToStr i, date := some ms,
                    amount := parseFloatStr ((parseCSVLine line).getD 1 ""),
                    type := jsTrim (jsToLower ((parseCSVLine line).getD 2 "")),
                    description := rowDesc line }) := rfl

theorem rowTx_some_inv (i : Nat) (line : String) (t : Transaction)
    (h : rowTx i line = some t) :
    ∃ ms : Int, dateParseStr ((parseCSVLine line).getD 0 "") = some ms ∧
      t = { id := intToStr ms ++ "-" ++ natToStr i, date := some ms,
            amount := parseFloatStr ((parseCSVLine line).getD 1 ""),
            type := jsTrim (jsToLower ((parseCSVLine line).getD 2 "")),
            description := rowDesc line } := by
  rw [rowTx_eq] at h
  by_cases hlen : (parseCSVLine line).length < 3
  · rw [if_pos hlen] at h
    exact Option.noConfusion h
  · rw [if_neg hlen] at h
    rcases hd : dateParseStr ((parseCSVLine line).getD 0 "") with _ | ms
    · rw [hd] at h
      exact Option.noConfusion h
    · rw [hd] at h
      dsimp only at h
      by_cases hv : (parseFloatStr ((parseCSVLine line).getD 1 "")).isNaN
          ∨ (jsTrim (jsToLower ((parseCSVLine line).getD 2 "")) ≠ "savings"
             ∧ jsTrim (jsToLower ((parseCSVLine line).getD 2 "")) ≠ "spend")
      · rw [if_pos hv] at h
        exact Option.noConfusion h
      · rw [if_neg hv] at h
        injection h with h
        exact ⟨ms, rfl, h.symm⟩

theorem rowTx_id_shape (i : Nat) (line : String) (t : Transaction)
    (h : rowTx i line = some t) :
    ∃ ms : Int, t.id = intToStr ms ++ "-" ++ natToStr i := by
  obtain ⟨ms, _, ht⟩ := rowTx_some_inv i line t h
  exact ⟨ms, by rw [ht]⟩

theorem rowTx_dateOk (i : Nat) (line : String) (t : Transaction)
    (h : rowTx i line = some t) : dateOkT t := by
  obtain ⟨ms, hd, ht⟩ := rowTx_some_inv i line t h
  rw [ht]
  show ms.natAbs ≤ 8640000000000000
  exact dateParseChars_clip _ ms hd

theorem parseRows_nil (i : Nat) (seen : List String) : parseRows [] i seen = [] := rfl

theorem parseRows_cons_blank (l : String) (rest : List String) (i : Nat)
    (seen : List String) (h : jsTrim l = "") :
    parseRows (l :: rest) i seen = parseRows rest (i + 1) seen := by
  rw [parseRows]
  rw [if_pos h]

theorem parseRows_cons_invalid (l : String) (rest : List String) (i : Nat)
    (seen : List String) (h1 : jsTrim l ≠ "") (h2 : rowTx i (jsTrim l) = none) :
    parseRows (l :: rest) i seen = parseRows rest (i + 1) seen := by
  rw [parseRows]
  rw [if_neg h1, h2]

theorem parseRows_cons_dup (l : String) (rest : List String) (i : Nat)
    (seen : List String) (t : Transaction) (h1 : jsTrim l ≠ "")
    (h2 : rowTx i (jsTrim l) = some t) (h3 : seen.contains t.id = true) :
    parseRows (l :: rest) i seen = parseRows rest (i + 1) seen := by
  rw [parseRows]
  rw [if_neg h1, h2]
  dsimp only
  rw [if_pos h3]

theorem parseRows_cons_new (l : String) (rest : List String) (i : Nat)
    (seen : List String) (t : Transaction) (h1 : jsTrim l ≠ "")
    (h2 : rowTx i (jsTrim l) = some t) (h3 : seen.contains t.id = false) :
    parseRows (l :: rest) i seen = t :: parseRows rest (i + 1) (t.id :: seen) := by
  rw [parseRows]
  rw [if_neg h1, h2]
  dsimp only
  rw [if_neg (by rw [h3]; exact Bool.false_ne_true)]

theorem rowTx_blank (i : Nat) : rowTx i "" = none := rfl

theorem parseRows_empty_of_subset (lines : List String) :
    ∀ (i : Nat) (seen1 seen2 : List String),
    (∀ x, seen1.contains x = true → seen2.contains x = true) →
    (∀ t ∈ parseRows lines i seen1, seen2.contains t.id = true) →
    parseRows lines i seen2 = [] := by
  induction lines with
  | nil =>
    intro i s1 s2 _ _
    rfl
  | cons l rest ih =>
    intro i s1 s2 hsub hb
    by_cases hbl : jsTrim l = ""
    · rw [parseRows_cons_blank l rest i s2 hbl]
      rw [parseRows_cons_blank l rest i s1 hbl] at hb
      exact ih (i + 1) s1 s2 hsub hb
    · rcases hr : rowTx i (jsTrim l) with _ | t
      · rw [parseRows_cons_invalid l rest i s2 hbl hr]
        rw [parseRows_cons_invalid l rest i s1 hbl hr] at hb
        exact ih (i + 1) s1 s2 hsub hb
      · cases hc1 : s1.contains t.id with
        | false =>
          rw [parseRows_cons_new l rest i s1 t hbl hr hc1] at hb
          have ht2 : s2.contains t.id = true := hb t (List.mem_cons_self t _)
          rw [parseRows_cons_dup l rest i s2 t hbl hr ht2]
          refine ih (i + 1) (t.id :: s1) s2 ?_ ?_
          · intro x hx
            rw [List.contains_cons] at hx
            rcases Bool.or_eq_true_iff.mp hx with h1 | h2
            · rw [eq_of_beq h1]
              exact ht2
            · exact hsub x h2
          · intro t2 ht2m
            exact hb t2 (List.mem_cons_of_mem t ht2m)
        | true =>
          rw [parseRows_cons_dup l rest i s1 t hbl hr hc1] at hb
          have ht2 : s2.contains t.id = true := hsub t.id hc1
          rw [parseRows_cons_dup l rest i s2 t hbl hr ht2]
          exact ih (i + 1) s1 s2 hsub hb

theorem parseRows_eq_filterMap (lines : List String) :
    ∀ (i : Nat) (seen : List String),
    (∀ (t : Transaction) (j : Nat) (l2 : String), i ≤ j → rowTx j (jsTrim l2) = some t →
      seen.contains t.id = false) →
    parseRows lines i seen
      = (List.enumFrom i lines).filterMap (fun p => rowTx p.1 (jsTrim p.2)) := by
  induction lines with
  | nil =>
    intro i seen _
    rfl
  | cons l rest ih =>
    intro i seen hf
    rw [List.enumFrom]
    have hstep := List.filterMap_cons (fun p : Nat × String => rowTx p.1 (jsTrim p.2))
      (i, l) (List.enumFrom (i + 1) rest)
    dsimp only at hstep
    by_cases hbl : jsTrim l = ""
    · have hrt : rowTx i (jsTrim l) = none := by
        rw [hbl]
        exact rowTx_blank i
      rw [parseRows_cons_blank l rest i seen hbl, hstep, hrt]
      exact ih (i + 1) seen (fun t j l2 hj => hf t j l2 (le_trans (Nat.le_succ i) hj))
    · rcases hr : rowTx i (jsTrim l) with _ | t
      · rw [parseRows_cons_invalid l rest i seen hbl hr, hstep, hr]
        exact ih (i + 1) seen (fun t j l2 hj => hf t j l2 (le_trans (Nat.le_succ i) hj))
      · have hc : seen.contains t.id = false := hf t i l (le_refl i) hr
        rw [parseRows_cons_new l rest i seen t hbl hr hc, hstep, hr]
        have hnext : parseRows rest (i + 1) (t.id :: seen)
            = List.filterMap (fun p : Nat × String => rowTx p.1 (jsTrim p.2))
                (List.enumFrom (i + 1) rest) := by
          refine ih (i + 1) (t.id :: seen) ?_
          intro t2 j l2 hj hr2
          obtain ⟨ms2, hid2⟩ := rowTx_id_shape j (jsTrim l2) t2 hr2
          obtain ⟨ms1, hid1⟩ := rowTx_id_shape i (jsTrim l) t hr
          have hne : t2.id ≠ t.id := by
            intro he
            rw [hid2, hid1] at he
            have := rowId_index_inj ms2 ms1 j i he
            omega
          rw [List.contains_cons, Bool.or_eq_false_iff]
          exact ⟨beq_eq_false_iff_ne.mpr hne, hf t2 j l2 (le_trans (Nat.le_succ i) hj) hr2⟩
        exact congrArg (List.cons t) hnext

theorem length_filterMap_eq_countP {α β : Type} (f : α → Option β) (l : List α) :
    (l.filterMap f).length = l.countP (fun a => (f a).isSome) := by
  induction l with
  | nil => rfl
  | cons a as ih =>
    rw [List.filterMap_cons, List.countP_cons]
    rcases hf : f a with _ | b
    · simp [ih]
    · simp [ih]

/-- Data lines of an import: the non-blank lines after the header. -/
def dataLinesOf (csvContent : String) : List String :=
  ((splitCh '\n' csvContent).filter (fun l => jsTrim l ≠ "")).drop 1

theorem importFromCSV_eq (storage : Option JsVal) (csvContent : String) :
    importFromCSV storage csvContent =
      (if ((splitCh '\n' csvContent).filter (fun l => jsTrim l ≠ "")).length < 2 then
        ({ success := false,
           message := "CSV file must have at least a header and one data row",
           count := 0 }, storage)
       else
         match getTransactions storage with
         | .error e =>
           ({ success := false, message := "Error importing CSV: " ++ e, count := 0 },
            storage)
         | .ok existing =>
           if (parseRows (dataLinesOf csvContent) 0 (existing.map (fun t => t.id))).length
               = 0 then
             ({ success := false, message := "No valid transactions found in CSV file",
                count := 0 }, storage)
           else
             ({ success := true,
                message := "Successfully imported "
                  ++ natToStr (parseRows (dataLinesOf csvContent) 0
                       (existing.map (fun t => t.id))).length ++ " transaction(s)",
                count := (parseRows (dataLinesOf csvContent) 0
                  (existing.map (fun t => t.id))).length },
              some (stringifyList (sortByDate (existing
                ++ parseRows (dataLinesOf csvContent) 0
                     (existing.map (fun t => t.id))))))) := rfl

theorem importFromCSV_fail_storage (storage : Option JsVal) (text : String)
    (h : (importFromCSV storage text).1.success = false) :
    (importFromCSV storage text).2 = storage := by
  rw [importFromCSV_eq] at h ⊢
  by_cases h2 : ((splitCh '\n' text).filter (fun l => jsTrim l ≠ "")).length < 2
  · rw [if_pos h2]
  · rw [if_neg h2] at h ⊢
    rcases hg : getTransactions storage with e | existing
    · rfl
    · rw [hg] at h
      dsimp only at h ⊢
      by_cases h0 : (parseRows (dataLinesOf text) 0 (existing.map (fun t => t.id))).length = 0
      · rw [if_pos h0]
      · rw [if_neg h0] at h
        exact absurd h (by exact fun hx => Bool.noConfusion hx)

theorem importFromCSV_success_inv (storage : Option JsVal) (text : String)
    (h : (importFromCSV storage text).1.success = true) :
    ∃ existing, getTransactions storage = .ok existing ∧
      2 ≤ ((splitCh '\n' text).filter (fun l => jsTrim l ≠ "")).length ∧
      parseRows (dataLinesOf text) 0 (existing.map (fun t => t.id)) ≠ [] ∧
      (importFromCSV storage text).1.count
        = (parseRows (dataLinesOf text) 0 (existing.map (fun t => t.id))).length ∧
      (importFromCSV storage text).2
        = some (stringifyList (sortByDate (existing
            ++ parseRows (dataLinesOf text) 0 (existing.map (fun t => t.id))))) := by
  rw [importFromCSV_eq] at h ⊢
  by_cases h2 : ((splitCh '\n' text).filter (fun l => jsTrim l ≠ "")).length < 2
  · rw [if_pos h2] at h
    exact absurd h (by exact fun hx => Bool.noConfusion hx)
  · rw [if_neg h2] at h ⊢
    rcases hg : getTransactions storage with e | existing
    · rw [hg] at h
      exact absurd h (by exact fun hx => Bool.noConfusion hx)
    · rw [hg] at h
      dsimp only at h ⊢
      by_cases h0 : (parseRows (dataLinesOf text) 0 (existing.map (fun t => t.id))).length = 0
      · rw [if_pos h0] at h
        exact absurd h (by exact fun hx => Bool.noConfusion hx)
      · rw [if_neg h0] at h ⊢
        exact ⟨existing, rfl, Nat.le_of_not_lt h2,
          fun hx => h0 (by rw [hx]; rfl), rfl, rfl⟩

theorem sortByDate_sorted (ts : List Transaction) :
    List.Sorted (fun a b => dateKey a ≤ dateKey b) (sortByDate ts) := by
  haveI : IsTotal Transaction (fun a b => dateKey a ≤ dateKey b) :=
    ⟨fun a b => Int.le_total (dateKey a) (dateKey b)⟩
  haveI : IsTrans Transaction (fun a b => dateKey a ≤ dateKey b) :=
    ⟨fun a b c hab hbc => le_trans hab hbc⟩
  exact List.sorted_insertionSort _ ts

theorem sortByDate_perm (ts : List Transaction) : (sortByDate ts).Perm ts :=
  List.perm_insertionSort _ ts

theorem sorted_split (L : List Transaction) :
    ∀ (A B : List Transaction), L.Perm (A ++ B) →
    List.Sorted (fun a b => dateKey a ≤ dateKey b) L →
    (∀ b ∈ B, ∀ a ∈ A, dateKey b < dateKey a) →
    ∃ pre post, L = pre ++ post ∧ pre.Perm B ∧ post.Perm A := by
  induction L with
  | nil =>
    intro A B hp _ _
    have hBA : A ++ B = [] := List.Perm.eq_nil hp.symm
    rcases List.append_eq_nil.mp hBA with ⟨hA, hB⟩
    exact ⟨[], [], rfl, by rw [hB], by rw [hA]⟩
  | cons x L2 ih =>
    intro A B hp hs hlt
    rcases hB : B with _ | ⟨b0, B2⟩
    · refine ⟨[], x :: L2, rfl, List.Perm.refl [], ?_⟩
      rw [hB, List.append_nil] at hp
      exact hp
    · rw [hB] at hp hlt
      have hxmem : x ∈ A ++ b0 :: B2 := hp.mem_iff.mp (List.mem_cons_self x L2)
      have hxB : x ∈ b0 :: B2 := by
        rcases List.mem_append.mp hxmem with hxa | hxb
        · exfalso
          have hblt : dateKey b0 < dateKey x :=
            hlt b0 (List.mem_cons_self b0 B2) x hxa
          have hb0mem : b0 ∈ x :: L2 :=
            hp.symm.mem_iff.mp (List.mem_append.mpr (Or.inr (List.mem_cons_self b0 B2)))
          rcases List.mem_cons.mp hb0mem with he | hm
          · rw [he] at hblt
            exact lt_irrefl _ hblt
          · have := (List.sorted_cons.mp hs).1 b0 hm
            exact absurd hblt (not_lt.mpr this)
        · exact hxb
      obtain ⟨B1a, B1b, hBsplit⟩ := List.mem_iff_append.mp hxB
      have hp2 : L2.Perm (A ++ (B1a ++ B1b)) := by
        have h1 : (A ++ (b0 :: B2)).Perm (x :: (A ++ (B1a ++ B1b))) := by
          rw [hBsplit, ← List.append_assoc, ← List.append_assoc]
          exact List.perm_middle
        exact (hp.trans h1).cons_inv
      have hlt2 : ∀ b ∈ B1a ++ B1b, ∀ a ∈ A, dateKey b < dateKey a := by
        intro b hb a ha
        refine hlt b ?_ a ha
        rw [hBsplit]
        rcases List.mem_append.mp hb with h1 | h2
        · exact List.mem_append.mpr (Or.inl h1)
        · exact List.mem_append.mpr (Or.inr (List.mem_cons_of_mem x h2))
      obtain ⟨pre2, post2, hL2, hpre2, hpost2⟩ :=
        ih A (B1a ++ B1b) hp2 (List.sorted_cons.mp hs).2 hlt2
      refine ⟨x :: pre2, post2, by rw [hL2, List.cons_append], ?_, hpost2⟩
      have : (x :: (B1a ++ B1b)).Perm (b0 :: B2) := by
        rw [hBsplit]
        exact List.perm_middle.symm
      exact (hpre2.cons x).trans this

/-! ## The claims -/

/-- **C1** (code bug).  The spec's append contract says an explicitly supplied
date is stored and "now" is only the default.  In the code, `addSavings`
(app.component.ts line 91) passes the date built from the form field as a
fourth argument, but `addTransaction` (transaction.service.ts line 28) has only
three parameters, so JavaScript silently discards it and line 32 stores
`new Date()`.  Concretely: with the form date `2024-01-15` (which parses to
epoch 1705276800000) and the clock at 1705939200123, the one stored record's
date is the clock time, not the supplied date. -/
theorem claimC1_addSavings_drops_date :
    dateParseStr "2024-01-15" = some 1705276800000 ∧
    (match addSavings (some (JSNum.finite 50 0)) "" "2024-01-15" 1705939200123 none with
     | .ok s2 => (getTransactions s2).toOption.map (fun ts => ts.map (fun t => t.date))
     | .error _ => none) = some [some 1705939200123] ∧
    (1705939200123 : Int) ≠ 1705276800000 := by
  exact ⟨by decide, by decide, by decide⟩

/-- **C3**, the original reading refuted: re-parsing the serialized field does
not yield back the quoted content `a,b"c`. -/
theorem claimC3_counterexample :
    parseCSVLine (escapeCell "a,b\"c") ≠ ["a,b\"c"] := by decide

/-- **C3** (corrected).  Export does serialize the description `a,b"c` to a
double-quoted field with the internal quote doubled, but the import scanner
(parseCSVLine, transaction.service.ts lines 146–157) drops every quote
character and never un-doubles a doubled quote, so re-parsing yields `a,bc`:
export quoting and import unquoting are not mutually inverse on this field. -/
theorem claimC3_quote_escape_not_inverse :
    escapeCell "a,b\"c" = "\"a,b\"\"c\"" ∧
    parseCSVLine (escapeCell "a,b\"c") = ["a,bc"] := by decide

/-- **C10** (confirmed).  Whenever import reports failure — the line-count gate,
a corrupt store read (the thrown error lands in the catch), or no surviving
rows — the storage slot is returned untouched; only the success path writes. -/
theorem claimC10_failure_preserves_storage :
    ∀ (storage : Option JsVal) (text : String),
    (importFromCSV storage text).1.success = false →
    (importFromCSV storage text).2 = storage :=
  fun storage text h => importFromCSV_fail_storage storage text h

/-- Witness for C10: importing well-formed CSV text over a corrupted slot (a
bare number, whose read throws) fails and leaves the slot exactly as it was. -/
theorem claimC10_failure_preserves_storage_witness :
    (importFromCSV (some (JsVal.num (JSNum.finite 42 0)))
        "Date,Amount,Type,Description\n2024-01-15,10,savings,x").2
      = some (JsVal.num (JSNum.finite 42 0)) :=
  claimC10_failure_preserves_storage (some (JsVal.num (JSNum.finite 42 0)))
    "Date,Amount,Type,Description\n2024-01-15,10,savings,x" (by decide)

/-- One stored element reads back successfully exactly when it is not `null` or
`undefined` (reading `t.date` off any other value succeeds, however junk). -/
theorem mapM_readTx_ok_iff (es : List JsVal) :
    (∃ ts, es.mapM readTx = Except.ok ts)
      ↔ (∀ e ∈ es, e ≠ JsVal.null ∧ e ≠ JsVal.undef) := by
  induction es with
  | nil =>
    constructor
    · intro _ e he
      exact absurd he (List.not_mem_nil e)
    · intro _
      exact ⟨[], rfl⟩
  | cons e rest ih =>
    rw [List.mapM_cons]
    constructor
    · rintro ⟨ts, hts⟩
      rcases he : readTx e with er | t
      · rw [he] at hts
        exact absurd hts (by exact fun hx => Except.noConfusion hx)
      · rw [he] at hts
        rcases hr : rest.mapM readTx with er | ts0
        · rw [hr] at hts
          exact absurd hts (by exact fun hx => Except.noConfusion hx)
        · intro e2 he2
          rcases List.mem_cons.mp he2 with h1 | h2
          · constructor
            · intro hnull
              rw [← h1, hnull] at he
              exact Except.noConfusion he
            · intro hundef
              rw [← h1, hundef] at he
              exact Except.noConfusion he
          · exact ih.mp ⟨ts0, hr⟩ e2 h2
    · intro hall
      have he : ∃ t, readTx e = .ok t := by
        match e with
        | .null => exact absurd rfl (hall .null (List.mem_cons_self _ _)).1
        | .undef => exact absurd rfl (hall .undef (List.mem_cons_self _ _)).2
        | .bool b | .num n | .str s | .arr xs | .obj fs => exact ⟨_, rfl⟩
      obtain ⟨t, ht⟩ := he
      obtain ⟨ts0, hts0⟩ := ih.mpr (fun x hx => hall x (List.mem_cons_of_mem e hx))
      refine ⟨t :: ts0, ?_⟩
      rw [ht, hts0]
      rfl

/-- One element of the persisted payload as the spec's §6 layout describes it:
an object with a string `id`, a parseable ISO date-time string `date`, a finite
number `amount`, a `type` that is one of the two enum strings, and an optional
string `description`.  Modelled from the spec's words, for comparison with the
code's actual acceptance. -/
def specValidTxJson (v : JsVal) : Bool :=
  (match jsGetF v "id" with | some (.str _) => true | _ => false)
    && (match jsGetF v "date" with
        | some (.str s) => (dateParseStr s).isSome
        | _ => false)
    && (match jsGetF v "amount" with | some (.num (.finite _ _)) => true | _ => false)
    && (match jsGetF v "type" with
        | some (.str s) => s == "savings" || s == "spend"
        | _ => false)
    && (match jsGetF v "description" with
        | none => true
        | some (.str _) => true
        | _ => false)

/-- The spec's notion of a valid persisted payload: a JSON array of valid
transaction elements.  Modelled from the spec's words (§6). -/
def specValidPayload (v : JsVal) : Bool :=
  match v with
  | .arr es => es.all specValidTxJson
  | _ => false

/-- **C9**, the original reading refuted: the payload `[1]` — an array holding
a bare number — is not a valid transaction list under the spec's §6 layout,
yet the read does not fail: it returns a junk record. -/
theorem claimC9_counterexample :
    specValidPayload (JsVal.arr [JsVal.num (JSNum.finite 1 0)]) = false ∧
    (getTransactions (some (JsVal.arr [JsVal.num (JSNum.finite 1 0)]))).toOption.isSome
      = true := by
  exact ⟨rfl, rfl⟩

/-- **C9** (corrected).  The absent-slot half is as specified: `list()` returns
`[]` and never fails.  But the failure condition is not "cannot be parsed into
a valid transaction list": the read fails exactly when the payload is not an
array or one of its elements is `null`/`undefined` (reading a field of it
throws); any other array — for example `[1]` — is returned as malformed
records rather than rejected. -/
theorem claimC9_list_error_characterization :
    getTransactions none = Except.ok [] ∧
    ∀ v : JsVal, (∃ ts, getTransactions (some v) = Except.ok ts)
      ↔ (∃ es, v = JsVal.arr es ∧ ∀ e ∈ es, e ≠ JsVal.null ∧ e ≠ JsVal.undef) := by
  refine ⟨rfl, ?_⟩
  intro v
  constructor
  · rintro ⟨ts, hts⟩
    match v with
    | .arr es =>
      rw [getTransactions] at hts
      exact ⟨es, rfl, (mapM_readTx_ok_iff es).mp ⟨ts, hts⟩⟩
    | .null | .undef | .bool _ | .num _ | .str _ | .obj _ =>
      exact absurd hts (by exact fun hx => Except.noConfusion hx)
  · rintro ⟨es, hv, hall⟩
    rw [hv]
    obtain ⟨ts, hts⟩ := (mapM_readTx_ok_iff es).mpr hall
    exact ⟨ts, hts⟩

/-- The elements of the persisted JSON array; empty for an absent or non-array
slot. -/
def storedElems : Option JsVal → List JsVal
  | some (.arr es) => es
  | _ => []

theorem storedElems_stringifyList (ts : List Transaction) :
    storedElems (some (stringifyList ts)) = ts.map stringifyTx := rfl

theorem jsGetF_stringify_amount (t : Transaction) :
    jsGetF (stringifyTx t) "amount" = some (numToJson t.amount) := by
  obtain ⟨tid, tdate, tam, tty, tde⟩ := t
  cases tdate <;> cases tde <;> rfl

theorem stringify_amount_ok (ts : List Transaction) :
    ∀ e ∈ storedElems (some (stringifyList ts)),
      (∃ m d, jsGetF e "amount" = some (JsVal.num (JSNum.finite m d)))
        ∨ jsGetF e "amount" = some JsVal.null := by
  rw [storedElems_stringifyList]
  intro e he
  obtain ⟨t, _, hte⟩ := List.mem_map.mp he
  rw [← hte, jsGetF_stringify_amount]
  rcases ham : t.amount with _ | _ | _ | ⟨m, d⟩
  · exact Or.inr rfl
  · exact Or.inr rfl
  · exact Or.inr rfl
  · exact Or.inl ⟨m, d, rfl⟩

theorem addTransaction_ok_inv (s : Option JsVal) (now : Int) (amount : JSNum)
    (ty : String) (de : Option String) (s2 : Option JsVal)
    (h : addTransaction s now amount ty de = .ok s2) :
    ∃ ts, s2 = some (stringifyList ts) := by
  rw [addTransaction] at h
  rcases hg : getTransactions s with e | ts
  · rw [hg] at h
    exact Except.noConfusion h
  · rw [hg] at h
    injection h with h
    exact ⟨_, h.symm⟩

theorem importFromCSV_storage_cases (storage : Option JsVal) (text : String) :
    (importFromCSV storage text).2 = storage
      ∨ ∃ ts, (importFromCSV storage text).2 = some (stringifyList ts) := by
  cases hb : (importFromCSV storage text).1.success with
  | false => exact Or.inl (importFromCSV_fail_storage storage text hb)
  | true =>
    obtain ⟨ex, _, _, _, _, h5⟩ := importFromCSV_success_inv storage text hb
    exact Or.inr ⟨_, h5⟩

/-- The state of the slot after importing the single Infinity-amount row into
an empty store. -/
def infinityImportStore : Option JsVal :=
  (importFromCSV none "Date,Amount,Type,Description\n2024-01-15,Infinity,savings,x").2

/-- Does the stored element's `amount` field hold a finite number? -/
def amountFieldFiniteB (e : JsVal) : Bool :=
  match jsGetF e "amount" with
  | some (.num (.finite _ _)) => true
  | _ => false

/-- **C2**, the original reading refuted: the import validation tests only
`isNaN(amount)`, so a row whose amount column parses to `Infinity` is admitted;
the resulting store is reachable, the import reports success, and the stored
record's amount field is not a finite number (JSON.stringify wrote `null`). -/
theorem claimC2_counterexample :
    Reachable infinityImportStore ∧
    parseFloatStr "Infinity" = JSNum.posInf ∧
    (importFromCSV none "Date,Amount,Type,Description\n2024-01-15,Infinity,savings,x").1
      = { success := true, message := "Successfully imported 1 transaction(s)",
          count := 1 } ∧
    amountFieldFiniteB ((storedElems infinityImportStore).getD 0 JsVal.undef) = false := by
  exact ⟨Reachable.imp none "Date,Amount,Type,Description\n2024-01-15,Infinity,savings,x"
    _ _ Reachable.empty rfl, by decide, by decide, by decide⟩

/-- **C2** (corrected).  The reachable-store invariant is weaker than claimed:
every stored record's amount field is a finite JSON number **or `null`** — a
row whose amount parses to `NaN` is skipped, but one parsing to an infinity is
admitted and persisted as `null` (`JSON.stringify` turns non-finite numbers
into `null`). -/
theorem claimC2_amount_finite_or_null :
    ∀ s, Reachable s → ∀ e ∈ storedElems s,
      (∃ m d, jsGetF e "amount" = some (JsVal.num (JSNum.finite m d)))
        ∨ jsGetF e "amount" = some JsVal.null := by
  intro s hre
  induction hre with
  | empty =>
    intro e he
    exact absurd he (List.not_mem_nil e)
  | add s now amount ty de s2 hre hty hadd ih =>
    obtain ⟨ts, hts⟩ := addTransaction_ok_inv s now amount ty de s2 hadd
    rw [hts]
    exact stringify_amount_ok ts
  | imp s text r s2 hre himp ih =>
    rcases importFromCSV_storage_cases s text with h1 | ⟨ts, h2⟩
    · rw [himp] at h1
      rw [show s2 = s from h1]
      exact ih
    · rw [himp] at h2
      rw [show s2 = some (stringifyList ts) from h2]
      exact stringify_amount_ok ts
  | clear s hre ih =>
    intro e he
    exact absurd he (List.not_mem_nil e)

/-- Witness for C2: the invariant evaluated at the reachable store produced by
the Infinity import — its one record's amount field is `null`. -/
theorem claimC2_amount_finite_or_null_witness :
    (∃ m d, jsGetF ((storedElems infinityImportStore).getD 0 JsVal.undef) "amount"
        = some (JsVal.num (JSNum.finite m d)))
      ∨ jsGetF ((storedElems infinityImportStore).getD 0 JsVal.undef) "amount"
        = some JsVal.null :=
  claimC2_amount_finite_or_null infinityImportStore
    (Reachable.imp none "Date,Amount,Type,Description\n2024-01-15,Infinity,savings,x"
      _ _ Reachable.empty rfl)
    ((storedElems infinityImportStore).getD 0 JsVal.undef)
    (by rw [show storedElems infinityImportStore
          = [(storedElems infinityImportStore).getD 0 JsVal.undef] from rfl]
        exact List.mem_cons_self _ _)

theorem contains_false_iff (l : List String) (a : String) :
    l.contains a = false ↔ a ∉ l := by
  rw [show l.contains a = List.elem a l from rfl]
  constructor
  · intro h hm
    rw [List.elem_iff.mpr hm] at h
    exact Bool.noConfusion h
  · intro h
    cases hc : List.elem a l
    · rfl
    · exact absurd (List.elem_iff.mp hc) h

/-- The id fields of the records the store reads back (empty when the read
fails). -/
def storedIds (s : Option JsVal) : List String :=
  ((getTransactions s).toOption.getD []).map (fun t => t.id)

theorem storedIds_of_get (s : Option JsVal) (ts : List Transaction)
    (h : getTransactions s = .ok ts) : storedIds s = ts.map (fun t => t.id) := by
  rw [storedIds, h]
  rfl

theorem map_id_normTx (ts : List Transaction) :
    (ts.map normTx).map (fun t => t.id) = ts.map (fun t => t.id) := by
  rw [List.map_map]
  rfl

theorem parseRows_dateOk (lines : List String) :
    ∀ (i : Nat) (seen : List String) (t : Transaction),
    t ∈ parseRows lines i seen → dateOkT t := by
  induction lines with
  | nil =>
    intro i seen t ht
    exact absurd ht (List.not_mem_nil t)
  | cons l rest ih =>
    intro i seen t ht
    by_cases hbl : jsTrim l = ""
    · rw [parseRows_cons_blank l rest i seen hbl] at ht
      exact ih (i + 1) seen t ht
    · rcases hr : rowTx i (jsTrim l) with _ | t0
      · rw [parseRows_cons_invalid l rest i seen hbl hr] at ht
        exact ih (i + 1) seen t ht
      · cases hc : seen.contains t0.id with
        | true =>
          rw [parseRows_cons_dup l rest i seen t0 hbl hr hc] at ht
          exact ih (i + 1) seen t ht
        | false =>
          rw [parseRows_cons_new l rest i seen t0 hbl hr hc] at ht
          rcases List.mem_cons.mp ht with h1 | h2
          · rw [h1]
            exact rowTx_dateOk i (jsTrim l) t0 hr
          · exact ih (i + 1) (t0.id :: seen) t h2

theorem parseRows_ids_ok (lines : List String) :
    ∀ (i : Nat) (seen : List String),
    ((parseRows lines i seen).map (fun t => t.id)).Nodup ∧
    ∀ t ∈ parseRows lines i seen, seen.contains t.id = false := by
  induction lines with
  | nil =>
    intro i seen
    exact ⟨List.nodup_nil, fun t ht => absurd ht (List.not_mem_nil t)⟩
  | cons l rest ih =>
    intro i seen
    by_cases hbl : jsTrim l = ""
    · rw [parseRows_cons_blank l rest i seen hbl]
      exact ih (i + 1) seen
    · rcases hr : rowTx i (jsTrim l) with _ | t0
      · rw [parseRows_cons_invalid l rest i seen hbl hr]
        exact ih (i + 1) seen
      · cases hc : seen.contains t0.id with
        | true =>
          rw [parseRows_cons_dup l rest i seen t0 hbl hr hc]
          exact ih (i + 1) seen
        | false =>
          rw [parseRows_cons_new l rest i seen t0 hbl hr hc]
          obtain ⟨ihn, ihf⟩ := ih (i + 1) (t0.id :: seen)
          constructor
          · rw [List.map_cons, List.nodup_cons]
            refine ⟨?_, ihn⟩
            intro hmem
            obtain ⟨t2, ht2, hid⟩ := List.mem_map.mp hmem
            have hthis := ihf t2 ht2
            rw [List.contains_cons, Bool.or_eq_false_iff] at hthis
            have hbeq : (t2.id == t0.id) = false := hthis.1
            rw [hid, beq_self_eq_true] at hbeq
            exact Bool.noConfusion hbeq
          · intro t ht
            rcases List.mem_cons.mp ht with h1 | h2
            · rw [h1]
              exact hc
            · have hthis := ihf t h2
              rw [List.contains_cons, Bool.or_eq_false_iff] at hthis
              exact hthis.2

/-- The store after one interactive append at clock reading 0. -/
def oneAddStore : Option JsVal :=
  (addTransaction none 0 (JSNum.finite 50 0) "savings" none).toOption.getD none

/-- The store after two interactive appends in the same millisecond. -/
def twoAddsStore : Option JsVal :=
  (addTransaction oneAddStore 0 (JSNum.finite 25 0) "spend" none).toOption.getD none

/-- **C4**, the original reading refuted: two appends during the same
millisecond both receive id `Date.now().toString()` with no collision check,
so a reachable store holds two records with the same id `"0"`. -/
theorem claimC4_counterexample :
    Reachable twoAddsStore ∧ storedIds twoAddsStore = ["0", "0"] ∧
    ¬ (storedIds twoAddsStore).Nodup := by
  refine ⟨?_, by decide, by decide⟩
  exact Reachable.add oneAddStore 0 (JSNum.finite 25 0) "spend" none twoAddsStore
    (Reachable.add none 0 (JSNum.finite 50 0) "savings" none oneAddStore
      Reachable.empty (Or.inl rfl) rfl)
    (Or.inr rfl) rfl

/-- **C4** (corrected).  Import always preserves id uniqueness (each accepted
row's id is checked against the existing-and-batch id set), but an interactive
append preserves it only when its time-derived id `Date.now().toString()` is
not already stored: two appends in one millisecond violate the invariant, so
it does not hold of every reachable collection. -/
theorem claimC4_id_uniqueness :
    (∀ (s : Option JsVal) (text : String),
      (storedIds s).Nodup → (storedIds (importFromCSV s text).2).Nodup) ∧
    (∀ (s : Option JsVal) (now : Int) (amount : JSNum) (ty : String)
        (de : Option String) (s2 : Option JsVal),
      (storedIds s).Nodup → intToStr now ∉ storedIds s →
      addTransaction s now amount ty de = .ok s2 → (storedIds s2).Nodup) := by
  constructor
  · intro s text hnd
    cases hb : (importFromCSV s text).1.success with
    | false =>
      rw [importFromCSV_fail_storage s text hb]
      exact hnd
    | true =>
      obtain ⟨ex, hex, _, _, _, h5⟩ := importFromCSV_success_inv s text hb
      rw [h5]
      have hdok : ∀ t ∈ sortByDate (ex ++ parseRows (dataLinesOf text) 0
          (ex.map (fun t => t.id))), dateOkT t := by
        intro t ht
        have hmem := (sortByDate_perm _).mem_iff.mp ht
        rcases List.mem_append.mp hmem with h1 | h2
        · exact getTransactions_dateOk s ex hex t h1
        · exact parseRows_dateOk (dataLinesOf text) 0 (ex.map (fun t => t.id)) t h2
      rw [storedIds_of_get _ _ (getTransactions_stringifyList _ hdok), map_id_normTx]
      have hperm : (sortByDate (ex ++ parseRows (dataLinesOf text) 0
            (ex.map (fun t => t.id)))).map (fun t => t.id)
          |>.Perm ((ex ++ parseRows (dataLinesOf text) 0
            (ex.map (fun t => t.id))).map (fun t => t.id)) :=
        (sortByDate_perm _).map (fun t => t.id)
      rw [hperm.nodup_iff, List.map_append, List.nodup_append]
      obtain ⟨hbn, hbf⟩ := parseRows_ids_ok (dataLinesOf text) 0 (ex.map (fun t => t.id))
      refine ⟨?_, hbn, ?_⟩
      · rw [← storedIds_of_get s ex hex]
        exact hnd
      · intro a ha hab
        obtain ⟨t2, ht2, hid2⟩ := List.mem_map.mp hab
        have hcont := hbf t2 ht2
        rw [contains_false_iff] at hcont
        rw [← hid2] at ha
        exact hcont ha
  · intro s now amount ty de s2 hnd hfresh hadd
    rw [addTransaction] at hadd
    rcases hg : getTransactions s with e | ts
    · rw [hg] at hadd
      exact Except.noConfusion hadd
    · rw [hg] at hadd
      injection hadd with hadd
      dsimp only at hadd
      rw [← hadd]
      have hdok : ∀ t ∈ ts ++ [(⟨intToStr now, mkDate now, amount, ty,
          descNorm de⟩ : Transaction)], dateOkT t := by
        intro t ht
        rcases List.mem_append.mp ht with h1 | h2
        · exact getTransactions_dateOk s ts hg t h1
        · rw [List.mem_singleton.mp h2]
          rw [dateOkT]
          rcases hm : mkDate now with _ | v
          · exact trivial
          · show v.natAbs ≤ 8640000000000000
            exact mkDate_clip now v hm
      rw [storedIds_of_get _ _ (getTransactions_stringifyList _ hdok), map_id_normTx,
        List.map_append, List.nodup_append]
      refine ⟨by rw [← storedIds_of_get s ts hg]; exact hnd, List.nodup_singleton _, ?_⟩
      intro a ha hab
      rw [List.map_singleton, List.mem_singleton] at hab
      rw [← storedIds_of_get s ts hg] at ha
      rw [hab] at ha
      exact hfresh ha

/-- Witness for C4: both preservation parts applied at concrete inputs — a CSV
load into an empty store, plus an append whose id is not yet stored. -/
theorem claimC4_id_uniqueness_witness :
    (storedIds (importFromCSV none
        "Date,Amount,Type,Description\n2024-01-15,100.50,savings,Monthly deposit").2).Nodup ∧
    (storedIds ((addTransaction none 5 (JSNum.finite 10 0) "savings" none).toOption.getD
        none)).Nodup := by
  constructor
  · exact claimC4_id_uniqueness.1 none
      "Date,Amount,Type,Description\n2024-01-15,100.50,savings,Monthly deposit" (by decide)
  · exact claimC4_id_uniqueness.2 none 5 (JSNum.finite 10 0) "savings" none
      ((addTransaction none 5 (JSNum.finite 10 0) "savings" none).toOption.getD none)
      (by decide) (by decide) rfl

/-- **C7**, the original reading refuted: an amount column parsing to
`Infinity` does not "fail to parse into a finite number" as far as the code's
check is concerned — the row passes `isNaN` and is imported, not skipped. -/
theorem claimC7_counterexample :
    parseFloatStr "Infinity" = JSNum.posInf ∧
    (rowTx 0 (jsTrim "2024-01-15,Infinity,savings,x")).isSome = true ∧
    (importFromCSV none
      "Date,Amount,Type,Description\n2024-01-15,Infinity,savings,x").1.count = 1 := by
  exact ⟨by decide, by decide, by decide⟩

/-- **C7** (corrected).  A data row is skipped silently — it contributes
nothing and by itself never flips the result to failure — exactly when it has
fewer than 3 parsed columns, its date column does not parse, its amount column
parses to `NaN` (not: to any non-finite value — an infinity is admitted), or
its normalized type is neither `savings` nor `spend`; the spec's 5-row example
(2 unparseable amounts, 1 type `transfer`) imports exactly 2 rows with
success. -/
theorem claimC7_invalid_rows_skipped :
    (∀ (i : Nat) (line : String) (rest seen : List String),
      rowTx i (jsTrim line) = none →
      parseRows (line :: rest) i seen = parseRows rest (i + 1) seen) ∧
    (∀ (i : Nat) (line : String),
      rowTx i line = none ↔
        ((parseCSVLine line).length < 3
         ∨ dateParseStr ((parseCSVLine line).getD 0 "") = none
         ∨ (parseFloatStr ((parseCSVLine line).getD 1 "")).isNaN = true
         ∨ (jsTrim (jsToLower ((parseCSVLine line).getD 2 "")) ≠ "savings"
            ∧ jsTrim (jsToLower ((parseCSVLine line).getD 2 "")) ≠ "spend"))) ∧
    (importFromCSV none
        ("Date,Amount,Type,Description\n2024-01-01,10,savings,a"
          ++ "\n2024-01-02,abc,savings,b\n2024-01-03,xyz,spend,c"
          ++ "\n2024-01-04,20,transfer,d\n2024-01-05,30,spend,e")).1
      = { success := true, message := "Successfully imported 2 transaction(s)",
          count := 2 } := by
  refine ⟨?_, ?_, by decide⟩
  · intro i line rest seen hnone
    by_cases hbl : jsTrim line = ""
    · exact parseRows_cons_blank line rest i seen hbl
    · exact parseRows_cons_invalid line rest i seen hbl hnone
  · intro i line
    rw [rowTx_eq i line]
    by_cases hlen : (parseCSVLine line).length < 3
    · rw [if_pos hlen]
      exact ⟨fun _ => Or.inl hlen, fun _ => rfl⟩
    · rw [if_neg hlen]
      rcases hd : dateParseStr ((parseCSVLine line).getD 0 "") with _ | ms
      · constructor
        · intro _
          exact Or.inr (Or.inl rfl)
        · intro _
          rfl
      · dsimp only
        constructor
        · intro h
          by_cases hv : (parseFloatStr ((parseCSVLine line).getD 1 "")).isNaN = true
              ∨ (jsTrim (jsToLower ((parseCSVLine line).getD 2 "")) ≠ "savings"
                 ∧ jsTrim (jsToLower ((parseCSVLine line).getD 2 "")) ≠ "spend")
          · rcases hv with h1 | h2
            · exact Or.inr (Or.inr (Or.inl h1))
            · exact Or.inr (Or.inr (Or.inr h2))
          · rw [if_neg hv] at h
            exact Option.noConfusion h
        · intro hr
          rcases hr with h1 | h2 | h3 | h4
          · exact absurd h1 hlen
          · exact Option.noConfusion h2
          · rw [if_pos (Or.inl h3)]
          · rw [if_pos (Or.inr h4)]

/-- Witness for C7: the skip equation applied to a concrete `transfer`-typed
row — it contributes nothing to the parsed batch. -/
theorem claimC7_invalid_rows_skipped_witness :
    parseRows ["2024-01-04,20,transfer,d"] 0 [] = parseRows [] 1 [] :=
  claimC7_invalid_rows_skipped.1 0 "2024-01-04,20,transfer,d" [] [] (by decide)

theorem contains_true_iff (l : List String) (a : String) :
    l.contains a = true ↔ a ∈ l := by
  rw [show l.contains a = List.elem a l from rfl]
  exact List.elem_iff

/-- How many data rows of the CSV text pass row validation (at their real row
index, as the import loop indexes them). -/
def validRowCount (text : String) : Nat :=
  (List.enumFrom 0 (dataLinesOf text)).countP (fun p => (rowTx p.1 (jsTrim p.2)).isSome)

/-- **C5** (confirmed).  Importing a CSV twice in a row: whenever the first
one succeeds, the second returns the NoValidRows failure with count 0 and
leaves the storage as the first import wrote it — every row's constructed id
`<millis>-<index>` is already in the stored id set.  Into an empty store, the
first import's count is exactly the number of rows passing validation (no
in-batch id collision is possible because the ids embed distinct row
indices). -/
theorem claimC5_duplicate_suppression :
    (∀ (storage : Option JsVal) (text : String),
      (importFromCSV storage text).1.success = true →
      importFromCSV (importFromCSV storage text).2 text
        = ({ success := false, message := "No valid transactions found in CSV file",
             count := 0 }, (importFromCSV storage text).2)) ∧
    (∀ text : String, (importFromCSV none text).1.count = validRowCount text) := by
  constructor
  · intro storage text h1
    obtain ⟨ex, hex, hlen, hneb, hcount, hs2⟩ := importFromCSV_success_inv storage text h1
    rw [hs2, importFromCSV_eq]
    rw [if_neg (not_lt.mpr hlen)]
    have hdok : ∀ t ∈ sortByDate (ex ++ parseRows (dataLinesOf text) 0
        (ex.map (fun t => t.id))), dateOkT t := by
      intro t ht
      have hmem := (sortByDate_perm _).mem_iff.mp ht
      rcases List.mem_append.mp hmem with hm1 | hm2
      · exact getTransactions_dateOk storage ex hex t hm1
      · exact parseRows_dateOk (dataLinesOf text) 0 (ex.map (fun t => t.id)) t hm2
    rw [getTransactions_stringifyList _ hdok]
    dsimp only
    rw [map_id_normTx]
    have hpermids : ((sortByDate (ex ++ parseRows (dataLinesOf text) 0
          (ex.map (fun t => t.id)))).map (fun t => t.id)).Perm
        ((ex ++ parseRows (dataLinesOf text) 0 (ex.map (fun t => t.id))).map
          (fun t => t.id)) :=
      (sortByDate_perm _).map (fun t => t.id)
    have hempty : parseRows (dataLinesOf text) 0
        ((sortByDate (ex ++ parseRows (dataLinesOf text) 0
          (ex.map (fun t => t.id)))).map (fun t => t.id)) = [] := by
      refine parseRows_empty_of_subset (dataLinesOf text) 0
        (ex.map (fun t => t.id)) _ ?_ ?_
      · intro x hx
        rw [contains_true_iff] at hx ⊢
        refine hpermids.symm.mem_iff.mp ?_
        rw [List.map_append]
        exact List.mem_append.mpr (Or.inl hx)
      · intro t ht
        rw [contains_true_iff]
        refine hpermids.symm.mem_iff.mp ?_
        rw [List.map_append]
        exact List.mem_append.mpr (Or.inr (List.mem_map.mpr ⟨t, ht, rfl⟩))
    rw [hempty]
    rw [if_pos (show (List.length ([] : List Transaction)) = 0 from rfl)]
  · intro text
    rw [importFromCSV_eq]
    by_cases h2 : ((splitCh '\n' text).filter (fun l => jsTrim l ≠ "")).length < 2
    · rw [if_pos h2]
      have hdrop : dataLinesOf text = [] := by
        rw [dataLinesOf]
        exact List.drop_eq_nil_of_le (by omega)
      rw [validRowCount, hdrop]
      rfl
    · rw [if_neg h2, show getTransactions none = Except.ok ([] : List Transaction) from rfl]
      dsimp only
      rw [show List.map (fun t : Transaction => t.id) ([] : List Transaction)
          = ([] : List String) from rfl]
      have hb : parseRows (dataLinesOf text) 0 []
          = (List.enumFrom 0 (dataLinesOf text)).filterMap
              (fun p => rowTx p.1 (jsTrim p.2)) :=
        parseRows_eq_filterMap (dataLinesOf text) 0 [] (fun t j l2 _ _ => rfl)
      by_cases h0 : (parseRows (dataLinesOf text) 0 ([] : List String)).length = 0
      · rw [if_pos h0]
        rw [hb, length_filterMap_eq_countP] at h0
        rw [validRowCount]
        exact h0.symm
      · rw [if_neg h0]
        rw [hb, length_filterMap_eq_countP, validRowCount]

/-- Witness for C5: the one-row CSV of the spec's own example, imported twice
into an initially empty store. -/
theorem claimC5_duplicate_suppression_witness :
    importFromCSV (importFromCSV none
        "Date,Amount,Type,Description\n2024-01-15,100.50,savings,Monthly deposit").2
        "Date,Amount,Type,Description\n2024-01-15,100.50,savings,Monthly deposit"
      = ({ success := false, message := "No valid transactions found in CSV file",
           count := 0 },
         (importFromCSV none
           "Date,Amount,Type,Description\n2024-01-15,100.50,savings,Monthly deposit").2) ∧
    (importFromCSV none
        "Date,Amount,Type,Description\n2024-01-15,100.50,savings,Monthly deposit").1.count
      = validRowCount "Date,Amount,Type,Description\n2024-01-15,100.50,savings,Monthly deposit" :=
  ⟨claimC5_duplicate_suppression.1 none
     "Date,Amount,Type,Description\n2024-01-15,100.50,savings,Monthly deposit" (by decide),
   claimC5_duplicate_suppression.2
     "Date,Amount,Type,Description\n2024-01-15,100.50,savings,Monthly deposit"⟩

/-- **C8** (confirmed).  On every successful import the persisted collection is
the merged existing-plus-batch collection sorted ascending by the date key, the
reported count is the batch length only, a subsequent read returns the sorted
merged collection, and when every imported transaction is dated strictly
earlier than every existing one the sorted collection is a batch permutation
followed by an existing permutation — the imported rows come first. -/
theorem claimC8_merge_sort_persist :
    ∀ (storage : Option JsVal) (text : String),
    (importFromCSV storage text).1.success = true →
    ∃ existing batch,
      getTransactions storage = .ok existing ∧
      batch = parseRows (dataLinesOf text) 0 (existing.map (fun t => t.id)) ∧
      (importFromCSV storage text).1.count = batch.length ∧
      (importFromCSV storage text).2
        = some (stringifyList (sortByDate (existing ++ batch))) ∧
      List.Sorted (fun a b => dateKey a ≤ dateKey b) (sortByDate (existing ++ batch)) ∧
      (sortByDate (existing ++ batch)).Perm (existing ++ batch) ∧
      getTransactions (importFromCSV storage text).2
        = .ok ((sortByDate (existing ++ batch)).map normTx) ∧
      ((∀ b ∈ batch, ∀ a ∈ existing, dateKey b < dateKey a) →
        ∃ pre post, sortByDate (existing ++ batch) = pre ++ post
          ∧ pre.Perm batch ∧ post.Perm existing) := by
  intro storage text h1
  obtain ⟨ex, hex, hlen, hneb, hcount, hs2⟩ := importFromCSV_success_inv storage text h1
  refine ⟨ex, parseRows (dataLinesOf text) 0 (ex.map (fun t => t.id)),
    hex, rfl, hcount, hs2, sortByDate_sorted _, sortByDate_perm _, ?_, ?_⟩
  · rw [hs2]
    refine getTransactions_stringifyList _ ?_
    intro t ht
    have hmem := (sortByDate_perm _).mem_iff.mp ht
    rcases List.mem_append.mp hmem with hm1 | hm2
    · exact getTransactions_dateOk storage ex hex t hm1
    · exact parseRows_dateOk (dataLinesOf text) 0 (ex.map (fun t => t.id)) t hm2
  · intro hlt
    exact sorted_split _ ex _ (sortByDate_perm _) (sortByDate_sorted _) hlt

/-- Witness for C8: importing two rows (in descending date order) into the
empty store — everything the theorem asserts, at this concrete input. -/
theorem claimC8_merge_sort_persist_witness :
    ∃ existing batch,
      getTransactions none = .ok existing ∧
      batch = parseRows (dataLinesOf
        "Date,Amount,Type,Description\n2024-01-20,5,spend,b\n2024-01-15,10,savings,a")
        0 (existing.map (fun t => t.id)) ∧
      (importFromCSV none
        "Date,Amount,Type,Description\n2024-01-20,5,spend,b\n2024-01-15,10,savings,a").1.count
        = batch.length ∧
      (importFromCSV none
        "Date,Amount,Type,Description\n2024-01-20,5,spend,b\n2024-01-15,10,savings,a").2
        = some (stringifyList (sortByDate (existing ++ batch))) ∧
      List.Sorted (fun a b => dateKey a ≤ dateKey b) (sortByDate (existing ++ batch)) ∧
      (sortByDate (existing ++ batch)).Perm (existing ++ batch) ∧
      getTransactions (importFromCSV none
        "Date,Amount,Type,Description\n2024-01-20,5,spend,b\n2024-01-15,10,savings,a").2
        = .ok ((sortByDate (existing ++ batch)).map normTx) ∧
      ((∀ b ∈ batch, ∀ a ∈ existing, dateKey b < dateKey a) →
        ∃ pre post, sortByDate (existing ++ batch) = pre ++ post
          ∧ pre.Perm batch ∧ post.Perm existing) :=
  claimC8_merge_sort_persist none
    "Date,Amount,Type,Description\n2024-01-20,5,spend,b\n2024-01-15,10,savings,a"
    (by decide)

/-! ### The export/import round trip (claim C6) -/

/-- A transaction the round-trip property quantifies over: a valid in-range
date, a finite amount, one of the two type literals, and a description without
the CSV special characters. -/
def wfTx (t : Transaction) : Bool :=
  (match t.date with
   | some ms => decide (ms.natAbs ≤ 8640000000000000)
   | none => false)
  && (match t.amount with | .finite _ _ => true | _ => false)
  && (t.type == "savings" || t.type == "spend")
  && ((t.description.getD "").data.all
      (fun c => !(c == ',') && !(c == '"') && !(c == '\n')))

theorem wfTx_spec (t : Transaction) (h : wfTx t = true) :
    (∃ ms, t.date = some ms ∧ ms.natAbs ≤ 8640000000000000) ∧
    (∃ m d, t.amount = .finite m d) ∧
    (t.type = "savings" ∨ t.type = "spend") ∧
    (∀ c ∈ (t.description.getD "").data, c ≠ ',' ∧ c ≠ '"' ∧ c ≠ '\n') := by
  rw [wfTx, Bool.and_eq_true, Bool.and_eq_true, Bool.and_eq_true] at h
  obtain ⟨⟨⟨h1, h2⟩, h3⟩, h4⟩ := h
  refine ⟨?_, ?_, ?_, ?_⟩
  · rcases hd : t.date with _ | ms
    · rw [hd] at h1
      exact Bool.noConfusion h1
    · rw [hd] at h1
      exact ⟨ms, rfl, of_decide_eq_true h1⟩
  · rcases ha : t.amount with _ | _ | _ | ⟨m, d⟩
    · rw [ha] at h2
      exact Bool.noConfusion h2
    · rw [ha] at h2
      exact Bool.noConfusion h2
    · rw [ha] at h2
      exact Bool.noConfusion h2
    · exact ⟨m, d, rfl⟩
  · rcases Bool.or_eq_true_iff.mp h3 with hx | hx
    · exact Or.inl (eq_of_beq hx)
    · exact Or.inr (eq_of_beq hx)
  · intro c hc
    have := List.all_eq_true.mp h4 c hc
    rw [Bool.and_eq_true, Bool.and_eq_true] at this
    obtain ⟨⟨g1, g2⟩, g3⟩ := this
    rw [Bool.not_eq_true'] at g1 g2 g3
    exact ⟨beq_eq_false_iff_ne.mp g1, beq_eq_false_iff_ne.mp g2,
      beq_eq_false_iff_ne.mp g3⟩

theorem normTx_eq_of_wf (t : Transaction) (h : wfTx t = true) : normTx t = t := by
  obtain ⟨⟨ms, hd, _⟩, ⟨m, d, ha⟩, _, _⟩ := wfTx_spec t h
  obtain ⟨tid, tdate, tam, tty, tde⟩ := t
  simp only at hd ha
  rw [normTx]
  rw [show tdate = some ms from hd, show tam = JSNum.finite m d from ha]

theorem finChars_plain (m : Int) (d : Nat) :
    ∀ c ∈ finChars m d, c ≠ ',' ∧ c ≠ '"' ∧ c ≠ '\n' ∧ jsWsCh c = false := by
  intro c hc
  rcases finChars_classes m d c hc with h | h | h
  · exact ⟨isDigitCh_ne_ch c ',' h (by decide), isDigitCh_ne_ch c '"' h (by decide),
      isDigitCh_ne_ch c '\n' h (by decide), isDigitCh_not_ws c h⟩
  · subst h
    exact ⟨by decide, by decide, by decide, by decide⟩
  · subst h
    exact ⟨by decide, by decide, by decide, by decide⟩

theorem mem_dropEndWs (c : Char) (l : List Char) (h : c ∈ dropEndWs l) : c ∈ l := by
  rw [dropEndWs] at h
  have := List.mem_reverse.mp h
  exact List.mem_reverse.mp ((List.dropWhile_sublist _).subset this)

theorem escape_noop (cell : List Char)
    (h : ∀ c ∈ cell, c ≠ ',' ∧ c ≠ '"' ∧ c ≠ '\n') : escapeCellChars cell = cell := by
  rw [escapeCellChars, if_neg]
  rintro (hx | hx | hx)
  · exact (h ',' hx).1 rfl
  · exact (h '"' hx).2.1 rfl
  · exact (h '\n' hx).2.2 rfl

theorem exportDateCell_eq (ms : Int) :
    exportDateCell ms = isoDateChars (ms / 86400000) := by
  rw [exportDateCell]
  have hiso : isoChars ms = isoDateChars (ms / 86400000) ++ 'T' ::
      (padNat 2 ((ms % 86400000).toNat / 3600000)
        ++ ':' :: (padNat 2 ((ms % 86400000).toNat % 3600000 / 60000)
        ++ ':' :: (padNat 2 ((ms % 86400000).toNat % 60000 / 1000)
        ++ '.' :: (padNat 3 ((ms % 86400000).toNat % 1000) ++ ['Z'])))) := by
    rw [isoChars]
    simp only [List.append_assoc, List.cons_append]
  rw [hiso]
  rw [splitChChars_append 'T' _ _
    (fun hx => (isoDateChars_plain (ms / 86400000) 'T' hx).2.2.2.1 rfl)]
  rfl

/-- The cells `exportToCSV` renders for one transaction. -/
def rowCellsOf (t : Transaction) : List (List Char) :=
  [exportDateCell (dateKey t), t.amount.toChars, t.type.data,
   (t.description.getD "").data]

theorem exportRowCells_of_wf (t : Transaction) (h : wfTx t = true) :
    exportRowCells t = .ok (rowCellsOf t) := by
  obtain ⟨⟨ms, hd, _⟩, _, _, _⟩ := wfTx_spec t h
  rw [exportRowCells, hd, rowCellsOf, dateKey, hd]

theorem mapM_exportRowCells (ts : List Transaction) (h : ∀ t ∈ ts, wfTx t = true) :
    ts.mapM exportRowCells = .ok (ts.map rowCellsOf) := by
  induction ts with
  | nil => rfl
  | cons t rest ih =>
    rw [List.mapM_cons, exportRowCells_of_wf t (h t (List.mem_cons_self t rest)),
      ih (fun x hx => h x (List.mem_cons_of_mem t hx)), List.map_cons]
    rfl

theorem splitChChars_joinSep (sep : Char) (xs : List (List Char)) (hne : xs ≠ [])
    (h : ∀ x ∈ xs, sep ∉ x) : splitChChars sep (joinSep sep xs) = xs := by
  induction xs with
  | nil => exact absurd rfl hne
  | cons x rest ih =>
    cases rest with
    | nil =>
      rw [show joinSep sep [x] = x from rfl]
      exact splitChChars_no_sep sep x (h x (List.mem_cons_self x []))
    | cons y rest2 =>
      rw [show joinSep sep (x :: y :: rest2) = x ++ sep :: joinSep sep (y :: rest2)
        from rfl]
      rw [splitChChars_append sep _ _ (h x (List.mem_cons_self _ _))]
      rw [ih (by exact fun hx => List.noConfusion hx)
        (fun z hz => h z (List.mem_cons_of_mem x hz))]

theorem rowTx_cols (i : Nat) (line : String) (w x y z : String)
    (hcols : parseCSVLine line = [w, x, y, z])
    (ms : Int) (hdate : dateParseStr w = some ms)
    (hnan : (parseFloatStr x).isNaN = false)
    (hty : jsTrim (jsToLower y) = "savings" ∨ jsTrim (jsToLower y) = "spend") :
    rowTx i line = some { id := intToStr ms ++ "-" ++ natToStr i, date := some ms,
                          amount := parseFloatStr x, type := jsTrim (jsToLower y),
                          description := if jsTrim z = "" then none
                                         else some (jsTrim z) } := by
  rw [rowTx_eq, rowDesc, hcols]
  simp only [List.getD_cons_zero, List.getD_cons_succ, List.get?_cons_zero,
    List.get?_cons_succ]
  rw [if_neg (by norm_num), hdate]
  dsimp only
  rw [if_neg ?hcond]
  case hcond =>
    rintro (h | ⟨hs, hp⟩)
    · rw [hnan] at h
      exact Bool.noConfusion h
    · rcases hty with h2 | h2
      · exact hs h2
      · exact hp h2

/-- The one-row string `exportToCSV` produces for a transaction. -/
def rowStrOf (t : Transaction) : String :=
  String.mk (joinSep ',' ((rowCellsOf t).map escapeCellChars))

set_option maxHeartbeats 1600000 in
theorem rowTx_export_row (i : Nat) (t : Transaction) (hwf : wfTx t = true) :
    jsTrim (rowStrOf t) ≠ "" ∧
    (∀ c ∈ (rowStrOf t).data, c ≠ '\n') ∧
    ∃ b, rowTx i (jsTrim (rowStrOf t)) = some b ∧
      JSNum.eqv t.amount b.amount = true ∧ b.type = t.type ∧
      (∀ ms0, t.date = some ms0 → b.date = some (ms0 / 86400000 * 86400000)) := by
  obtain ⟨⟨ms, hdate, hms⟩, ⟨m, d, hamt⟩, hty, hdesc⟩ := wfTx_spec t hwf
  have hplain1 : ∀ c ∈ isoDateChars (ms / 86400000), c ≠ ',' ∧ c ≠ '"' ∧ c ≠ '\n' :=
    fun c hc => ⟨(isoDateChars_plain _ c hc).1, (isoDateChars_plain _ c hc).2.1,
      (isoDateChars_plain _ c hc).2.2.1⟩
  have hws1 : ∀ c ∈ isoDateChars (ms / 86400000), jsWsCh c = false :=
    fun c hc => (isoDateChars_plain _ c hc).2.2.2.2
  have hplain2 : ∀ c ∈ finChars m d, c ≠ ',' ∧ c ≠ '"' ∧ c ≠ '\n' :=
    fun c hc => ⟨(finChars_plain m d c hc).1, (finChars_plain m d c hc).2.1,
      (finChars_plain m d c hc).2.2.1⟩
  have hws2 : ∀ c ∈ finChars m d, jsWsCh c = false :=
    fun c hc => (finChars_plain m d c hc).2.2.2
  have hplain3 : ∀ c ∈ t.type.data, c ≠ ',' ∧ c ≠ '"' ∧ c ≠ '\n' := by
    rcases hty with h | h <;> rw [h] <;> decide
  have hws3 : ∀ c ∈ t.type.data, jsWsCh c = false := by
    rcases hty with h | h <;> rw [h] <;> decide
  have hkey : dateKey t = ms := by
    rw [dateKey, hdate]
  have hc1 : exportDateCell (dateKey t) = isoDateChars (ms / 86400000) := by
    rw [hkey, exportDateCell_eq]
  have hc2 : t.amount.toChars = finChars m d := by
    rw [hamt]
    rfl
  have hmap : (rowCellsOf t).map escapeCellChars
      = [isoDateChars (ms / 86400000), finChars m d, t.type.data,
         (t.description.getD "").data] := by
    rw [rowCellsOf]
    simp only [List.map_cons, List.map_nil]
    rw [hc1, hc2, escape_noop _ hplain1, escape_noop _ hplain2, escape_noop _ hplain3,
      escape_noop _ hdesc]
  have hA : ∀ c ∈ isoDateChars (ms / 86400000) ++ ',' :: (finChars m d
      ++ ',' :: (t.type.data ++ [','])), jsWsCh c = false := by
    intro c hc
    rcases List.mem_append.mp hc with h | h
    · exact hws1 c h
    · rcases List.mem_cons.mp h with h1 | h1
      · rw [h1]
        decide
      · rcases List.mem_append.mp h1 with h2 | h2
        · exact hws2 c h2
        · rcases List.mem_cons.mp h2 with h3 | h3
          · rw [h3]
            decide
          · rcases List.mem_append.mp h3 with h4 | h4
            · exact hws3 c h4
            · rw [List.mem_singleton.mp h4]
              decide
  have hAne : isoDateChars (ms / 86400000) ++ ',' :: (finChars m d
      ++ ',' :: (t.type.data ++ [','])) ≠ [] :=
    fun h => List.noConfusion (List.append_eq_nil.mp h).2
  have hdata : (rowStrOf t).data = (isoDateChars (ms / 86400000)
      ++ ',' :: (finChars m d ++ ',' :: (t.type.data ++ [','])))
      ++ (t.description.getD "").data := by
    show joinSep ',' ((rowCellsOf t).map escapeCellChars) = _
    rw [hmap]
    rw [show joinSep ',' [isoDateChars (ms / 86400000), finChars m d, t.type.data,
      (t.description.getD "").data] = isoDateChars (ms / 86400000)
        ++ ',' :: (finChars m d ++ ',' :: (t.type.data
        ++ ',' :: (t.description.getD "").data)) from rfl]
    simp only [List.append_assoc, List.cons_append, List.singleton_append,
      List.nil_append]
  have htrimrow : jsTrimChars ((rowStrOf t).data)
      = (isoDateChars (ms / 86400000) ++ ',' :: (finChars m d ++ ',' :: (t.type.data
          ++ [',']))) ++ dropEndWs ((t.description.getD "").data) := by
    rw [hdata, jsTrim_concat _ _ hAne (fun c hc => hA c (List.mem_of_mem_head? hc))
      (fun c hc => hA c (List.mem_of_mem_getLast? hc))]
  refine ⟨?_, ?_, ?_⟩
  · intro h
    have hd2 := congrArg String.data h
    rw [show (jsTrim (rowStrOf t)).data = jsTrimChars ((rowStrOf t).data) from rfl,
      htrimrow, show ("" : String).data = [] from rfl] at hd2
    exact hAne (List.append_eq_nil.mp hd2).1
  · intro c hc
    rw [hdata] at hc
    rcases List.mem_append.mp hc with h | h
    · rcases List.mem_append.mp h with h0 | h0
      · exact (hplain1 c h0).2.2
      · rcases List.mem_cons.mp h0 with h1 | h1
        · rw [h1]
          decide
        · rcases List.mem_append.mp h1 with h2 | h2
          · exact (hplain2 c h2).2.2
          · rcases List.mem_cons.mp h2 with h3 | h3
            · rw [h3]
              decide
            · rcases List.mem_append.mp h3 with h4 | h4
              · exact (hplain3 c h4).2.2
              · rw [List.mem_singleton.mp h4]
                decide
    · exact (hdesc c h).2.2
  · have hcols : parseCSVLine (jsTrim (rowStrOf t))
        = [String.mk (isoDateChars (ms / 86400000)), String.mk (finChars m d),
           t.type, String.mk (jsTrimChars (dropEndWs ((t.description.getD "").data)))] := by
      rw [parseCSVLine]
      rw [show (jsTrim (rowStrOf t)).data = jsTrimChars ((rowStrOf t).data) from rfl,
        htrimrow]
      have hjoin2 : (isoDateChars (ms / 86400000) ++ ',' :: (finChars m d
          ++ ',' :: (t.type.data ++ [',']))) ++ dropEndWs ((t.description.getD "").data)
          = joinSep ',' [isoDateChars (ms / 86400000), finChars m d, t.type.data,
              dropEndWs ((t.description.getD "").data)] := by
        rw [show joinSep ',' [isoDateChars (ms / 86400000), finChars m d, t.type.data,
          dropEndWs ((t.description.getD "").data)] = isoDateChars (ms / 86400000)
            ++ ',' :: (finChars m d ++ ',' :: (t.type.data
            ++ ',' :: dropEndWs ((t.description.getD "").data))) from rfl]
        simp only [List.append_assoc, List.cons_append, List.singleton_append,
          List.nil_append]
      rw [hjoin2]
      rw [csvAux_cells [finChars m d, t.type.data,
        dropEndWs ((t.description.getD "").data)] (isoDateChars (ms / 86400000)) []
        ?hok]
      case hok =>
        intro x hx c hc2
        rcases List.mem_cons.mp hx with h1 | h1
        · rw [h1] at hc2
          exact ⟨(hplain1 c hc2).2.1, (hplain1 c hc2).1⟩
        rcases List.mem_cons.mp h1 with h2 | h2
        · rw [h2] at hc2
          exact ⟨(hplain2 c hc2).2.1, (hplain2 c hc2).1⟩
        rcases List.mem_cons.mp h2 with h3 | h3
        · rw [h3] at hc2
          exact ⟨(hplain3 c hc2).2.1, (hplain3 c hc2).1⟩
        rcases List.mem_cons.mp h3 with h4 | h4
        · rw [h4] at hc2
          have := hdesc c (mem_dropEndWs c _ hc2)
          exact ⟨this.2.1, this.1⟩
        · exact absurd h4 (List.not_mem_nil x)
      rw [List.nil_append]
      simp only [List.map_cons, List.map_nil]
      rw [jsTrim_plain _ hws1, jsTrim_plain _ hws2, jsTrim_plain _ hws3]
    have hnan : (parseFloatStr (String.mk (finChars m d))).isNaN = false := by
      rw [show parseFloatStr (String.mk (finChars m d))
          = parseFloatChars (finChars m d) from rfl, parseFloatChars_finChars]
      rfl
    have htyc : jsTrim (jsToLower t.type) = "savings"
        ∨ jsTrim (jsToLower t.type) = "spend" := by
      rcases hty with h | h
      · left
        rw [h]
        decide
      · right
        rw [h]
        decide
    have hdparse : dateParseStr (String.mk (isoDateChars (ms / 86400000)))
        = some (ms / 86400000 * 86400000) := dateParse_isoDateChars ms hms
    have hrow := rowTx_cols i (jsTrim (rowStrOf t)) _ _ _ _ hcols
      (ms / 86400000 * 86400000) hdparse hnan htyc
    refine ⟨_, hrow, ?_, ?_, ?_⟩
    · rw [hamt]
      show JSNum.eqv (JSNum.finite m d) (parseFloatStr (String.mk (finChars m d))) = true
      rw [show parseFloatStr (String.mk (finChars m d))
          = parseFloatChars (finChars m d) from rfl, parseFloatChars_finChars]
      exact eqv_canonP m d
    · show jsTrim (jsToLower t.type) = t.type
      rcases hty with h | h <;> rw [h] <;> decide
    · intro ms0 hms0
      rw [hdate] at hms0
      have hmseq : ms = ms0 := Option.some.inj hms0
      show some (ms / 86400000 * 86400000) = some (ms0 / 86400000 * 86400000)
      rw [hmseq]

theorem wfTx_dateOk (t : Transaction) (h : wfTx t = true) : dateOkT t := by
  obtain ⟨⟨ms, hd, hb⟩, _, _, _⟩ := wfTx_spec t h
  rw [dateOkT, hd]
  exact hb

theorem getTransactions_stringify_wf (ts : List Transaction)
    (hwf : ∀ t ∈ ts, wfTx t = true) :
    getTransactions (some (stringifyList ts)) = .ok ts := by
  rw [getTransactions_stringifyList ts (fun t ht => wfTx_dateOk t (hwf t ht))]
  rw [List.map_congr_left (fun t ht => normTx_eq_of_wf t (hwf t ht)), List.map_id']

/-- The CSV text `exportToCSV` produces for a stored list. -/
def csvOf (ts : List Transaction) : String :=
  String.mk (joinSep '\n'
    ("Date,Amount,Type,Description".data :: ts.map (fun t => (rowStrOf t).data)))

theorem exportToCSV_stringify_wf (ts : List Transaction)
    (hwf : ∀ t ∈ ts, wfTx t = true) :
    exportToCSV (some (stringifyList ts)) = .ok (csvOf ts) := by
  rw [exportToCSV, getTransactions_stringify_wf ts hwf]
  show Except.map _ (ts.mapM exportRowCells) = Except.ok (csvOf ts)
  rw [mapM_exportRowCells ts hwf]
  show Except.ok (String.mk (joinSep '\n' ("Date,Amount,Type,Description".data
      :: (ts.map rowCellsOf).map (fun row => joinSep ',' (row.map escapeCellChars)))))
    = Except.ok (csvOf ts)
  rw [List.map_map, csvOf]
  rfl

theorem filterMap_export_rows (ts : List Transaction) :
    ∀ i : Nat, (∀ t ∈ ts, wfTx t = true) →
    List.Forall₂ (fun b t => JSNum.eqv t.amount b.amount = true ∧ b.type = t.type ∧
        ∀ ms0, t.date = some ms0 → b.date = some (ms0 / 86400000 * 86400000))
      ((List.enumFrom i (ts.map rowStrOf)).filterMap
        (fun p => rowTx p.1 (jsTrim p.2))) ts := by
  induction ts with
  | nil =>
    intro i _
    exact List.Forall₂.nil
  | cons t rest ih =>
    intro i hwf
    rw [List.map_cons, List.enumFrom]
    have hstep := List.filterMap_cons (fun p : Nat × String => rowTx p.1 (jsTrim p.2))
      (i, rowStrOf t) (List.enumFrom (i + 1) (rest.map rowStrOf))
    dsimp only at hstep
    obtain ⟨hnb, hnl, b, hb, hrel⟩ := rowTx_export_row i t (hwf t (List.mem_cons_self _ _))
    rw [hstep, hb]
    exact List.Forall₂.cons hrel (ih (i + 1) (fun x hx => hwf x (List.mem_cons_of_mem _ hx)))

theorem parseRows_export_rows (ts : List Transaction)
    (hwf : ∀ t ∈ ts, wfTx t = true) :
    List.Forall₂ (fun b t => JSNum.eqv t.amount b.amount = true ∧ b.type = t.type ∧
        ∀ ms0, t.date = some ms0 → b.date = some (ms0 / 86400000 * 86400000))
      (parseRows (ts.map rowStrOf) 0 []) ts := by
  rw [parseRows_eq_filterMap (ts.map rowStrOf) 0 [] (fun t j l2 _ _ => rfl)]
  exact filterMap_export_rows ts 0 hwf

theorem mem_joinSep (sep : Char) (xs : List (List Char)) (c : Char)
    (h : c ∈ joinSep sep xs) : c = sep ∨ ∃ x ∈ xs, c ∈ x := by
  induction xs with
  | nil => exact absurd h (List.not_mem_nil c)
  | cons x rest ih =>
    cases rest with
    | nil => exact Or.inr ⟨x, List.mem_cons_self x [], h⟩
    | cons y rest2 =>
      rw [show joinSep sep (x :: y :: rest2) = x ++ sep :: joinSep sep (y :: rest2)
        from rfl] at h
      rcases List.mem_append.mp h with h1 | h1
      · exact Or.inr ⟨x, List.mem_cons_self _ _, h1⟩
      · rcases List.mem_cons.mp h1 with h2 | h2
        · exact Or.inl h2
        · rcases ih h2 with h3 | ⟨z, hz, hcz⟩
          · exact Or.inl h3
          · exact Or.inr ⟨z, List.mem_cons_of_mem x hz, hcz⟩

theorem splitCh_csvOf (ts : List Transaction) (hwf : ∀ t ∈ ts, wfTx t = true) :
    splitCh '\n' (csvOf ts) = "Date,Amount,Type,Description" :: ts.map rowStrOf := by
  rw [splitCh]
  rw [show (csvOf ts).data = joinSep '\n'
    ("Date,Amount,Type,Description".data :: ts.map (fun t => (rowStrOf t).data)) from rfl]
  rw [splitChChars_joinSep '\n' _ (by exact fun hx => List.noConfusion hx) ?hnl]
  case hnl =>
    intro x hx
    rcases List.mem_cons.mp hx with h1 | h1
    · rw [h1]
      decide
    · obtain ⟨t, ht, hxe⟩ := List.mem_map.mp h1
      rw [← hxe]
      intro hmem
      obtain ⟨_, hnl, _⟩ := rowTx_export_row 0 t (hwf t ht)
      exact hnl '\n' hmem rfl
  rw [List.map_cons, List.map_map]
  rfl

/-- **C6**, the original reading refuted: for the empty transaction list the
serialized CSV is the bare header row, and importing it fails the minimum-row
gate instead of succeeding with the same (zero) count. -/
theorem claimC6_counterexample :
    exportToCSV (some (stringifyList [])) = .ok "Date,Amount,Type,Description" ∧
    (importFromCSV none "Date,Amount,Type,Description").1
      = { success := false,
          message := "CSV file must have at least a header and one data row",
          count := 0 } := by
  exact ⟨rfl, by decide⟩

/-- **C6** (corrected).  For every **nonempty** list of well-formed
transactions (valid in-range dates, finite amounts, the two type literals,
descriptions free of comma/quote/newline), importing the exported CSV into an
empty store succeeds and reproduces the same number of rows, with amounts equal
as numeric values, identical types, and dates truncated to the day. -/
theorem claimC6_export_import_roundtrip :
    ∀ ts : List Transaction, ts ≠ [] → (∀ t ∈ ts, wfTx t = true) →
    ∃ csv, exportToCSV (some (stringifyList ts)) = .ok csv ∧
      (importFromCSV none csv).1.success = true ∧
      (importFromCSV none csv).1.count = ts.length ∧
      List.Forall₂ (fun b t => JSNum.eqv t.amount b.amount = true ∧ b.type = t.type ∧
          ∀ ms0, t.date = some ms0 → b.date = some (ms0 / 86400000 * 86400000))
        (parseRows (dataLinesOf csv) 0 []) ts := by
  intro ts hne hwf
  have hlines : (splitCh '\n' (csvOf ts)).filter (fun l => jsTrim l ≠ "")
      = "Date,Amount,Type,Description" :: ts.map rowStrOf := by
    rw [splitCh_csvOf ts hwf]
    refine List.filter_eq_self.mpr ?_
    intro a ha
    rcases List.mem_cons.mp ha with h1 | h1
    · rw [h1]
      decide
    · obtain ⟨t, ht, hxe⟩ := List.mem_map.mp h1
      obtain ⟨hnb, _, _⟩ := rowTx_export_row 0 t (hwf t ht)
      rw [← hxe]
      exact decide_eq_true hnb
  have hdata2 : dataLinesOf (csvOf ts) = ts.map rowStrOf := by
    rw [dataLinesOf, hlines]
    rfl
  have hlen2 : ¬ ((splitCh '\n' (csvOf ts)).filter (fun l => jsTrim l ≠ "")).length < 2 := by
    rw [hlines]
    have h1 : 0 < (ts.map rowStrOf).length :=
      List.length_pos.mpr (fun h => hne (List.map_eq_nil_iff.mp h))
    simp only [List.length_cons]
    omega
  have hforall : List.Forall₂ (fun b t => JSNum.eqv t.amount b.amount = true
      ∧ b.type = t.type ∧
      ∀ ms0, t.date = some ms0 → b.date = some (ms0 / 86400000 * 86400000))
      (parseRows (ts.map rowStrOf) 0 []) ts := parseRows_export_rows ts hwf
  have hblen : (parseRows (ts.map rowStrOf) 0 []).length = ts.length :=
    hforall.length_eq
  have himp : importFromCSV none (csvOf ts)
      = ({ success := true,
           message := "Successfully imported "
             ++ natToStr (parseRows (ts.map rowStrOf) 0 []).length
             ++ " transaction(s)",
           count := (parseRows (ts.map rowStrOf) 0 []).length },
         some (stringifyList (sortByDate ([] ++ parseRows (ts.map rowStrOf) 0 [])))) := by
    rw [importFromCSV_eq, if_neg hlen2,
      show getTransactions none = Except.ok ([] : List Transaction) from rfl]
    dsimp only
    rw [show List.map (fun t : Transaction => t.id) ([] : List Transaction)
        = ([] : List String) from rfl]
    rw [hdata2]
    rw [if_neg (fun h => hne (List.length_eq_zero.mp (hblen ▸ h)))]
  refine ⟨csvOf ts, exportToCSV_stringify_wf ts hwf, ?_, ?_, ?_⟩
  · rw [himp]
  · rw [himp]
    exact hblen
  · rw [hdata2]
    exact hforall

/-- Witness for C6: the round trip at a concrete one-transaction list
(amount 100.5, date 2024-01-15 10:30 UTC, type savings, description hello). -/
theorem claimC6_export_import_roundtrip_witness :
    ∃ csv, exportToCSV (some (stringifyList [⟨"x", some 1705314600000,
        JSNum.finite 1005 1, "savings", some "hello"⟩])) = .ok csv ∧
      (importFromCSV none csv).1.success = true ∧
      (importFromCSV none csv).1.count
        = ([(⟨"x", some 1705314600000, JSNum.finite 1005 1, "savings",
            some "hello"⟩ : Transaction)] : List Transaction).length ∧
      List.Forall₂ (fun (b t : Transaction) => JSNum.eqv t.amount b.amount = true
          ∧ b.type = t.type ∧
          ∀ ms0, t.date = some ms0 → b.date = some (ms0 / 86400000 * 86400000))
        (parseRows (dataLinesOf csv) 0 [])
        [⟨"x", some 1705314600000, JSNum.finite 1005 1, "savings", some "hello"⟩] :=
  claimC6_export_import_roundtrip
    [⟨"x", some 1705314600000, JSNum.finite 1005 1, "savings", some "hello"⟩]
    (by decide) (by decide)
